import Mathlib

/-!
# Verification of the in-memory geospatial collection

A shallow embedding of the collection core (`package collection`): the
id-ordered b-tree, the value-ordered b-tree, the spatial index, the field
table, and the aggregate counters, together with the mutation and query
operations.  Go `float64` coordinates and field values are modelled as
rationals, Go byte lengths of strings as character counts (the two agree on
ASCII data), Go machine integers as unbounded `Int`/`Nat` (the counters stay
far from overflow), and Go maps as association lists.  Index-out-of-range
panics are modelled with `Except`, the error carrying the collection state
at the moment of the panic (a recovered Go panic leaves the pointed-to
collection in exactly that state).  The cursor argument is modelled by the
offset it reports (`Cursor.Offset`); `Cursor.Step` and `deadline.Check`
touch only caller-owned state outside the collection, and traversals are
embedded with a nil deadline.
-/

namespace Tile38

/-- A 2-D point with rational coordinates (models `geometry.Point`). -/
structure GPoint where
  x : ℚ
  y : ℚ
  deriving DecidableEq

/-- An axis-aligned rectangle (models `geometry.Rect`). -/
structure GRect where
  min : GPoint
  max : GPoint
  deriving DecidableEq

/-- `true` when the two rectangles overlap (share at least one point). -/
def rectIntersects (a b : GRect) : Bool :=
  decide (a.min.x ≤ b.max.x) && decide (b.min.x ≤ a.max.x) &&
  decide (a.min.y ≤ b.max.y) && decide (b.min.y ≤ a.max.y)

/-- `true` when rectangle `a` is contained in rectangle `b`. -/
def rectWithin (a b : GRect) : Bool :=
  decide (b.min.x ≤ a.min.x) && decide (a.max.x ≤ b.max.x) &&
  decide (b.min.y ≤ a.min.y) && decide (a.max.y ≤ b.max.y)

/-- Modelled from the spec: the external `geo.RectFromCenter` (geo library,
not part of this repository) derives a bounding rectangle
`(minLat, minLon, maxLat, maxLon)` from a circle's center and its radius in
meters. -/
def rectFromCenter (lat lon meters : ℚ) : ℚ × ℚ × ℚ × ℚ :=
  (lat - meters, lon - meters, lat + meters, lon + meters)

/-- The bounding rectangle of a circle, via `rectFromCenter`
(`x` is longitude, `y` is latitude). -/
def circleRect (center : GPoint) (meters : ℚ) : GRect :=
  let r := rectFromCenter center.y center.x meters
  ⟨⟨r.2.1, r.1⟩, ⟨r.2.2.2, r.2.2.1⟩⟩

/-- A geometry value (`geojson.Object`).  `str` models `geojson.String`
(non-spatial, behaves as an opaque string); `rectObj` models a spatial
geometry carried by its bounding rectangle together with its point count,
emptiness flag and JSON string form; `circle` models `geojson.Circle`.
`within`/`intersects` below are evaluated on bounding rectangles, which is
exact for rectangle geometries (the geometry engine itself is external to
the repository). -/
inductive GeoObject where
  | str (s : String)
  | rectObj (r : GRect) (nPoints : Nat) (emp : Bool) (strForm : String)
  | circle (center : GPoint) (meters : ℚ) (nPoints : Nat) (strForm : String)
  deriving DecidableEq

/-- `obj.String()`: the string form of a value. -/
def GeoObject.string : GeoObject → String
  | .str s => s
  | .rectObj _ _ _ sf => sf
  | .circle _ _ _ sf => sf

/-- `obj.NumPoints()`. -/
def GeoObject.numPoints : GeoObject → Nat
  | .str _ => 0
  | .rectObj _ n _ _ => n
  | .circle _ _ n _ => n

/-- `obj.Empty()`.  Only consulted on spatial values by the translated
code paths. -/
def GeoObject.empty : GeoObject → Bool
  | .str _ => true
  | .rectObj _ _ e _ => e
  | .circle _ _ _ _ => false

/-- `obj.Rect()`: the bounding rectangle. -/
def GeoObject.rect : GeoObject → GRect
  | .str _ => ⟨⟨0, 0⟩, ⟨0, 0⟩⟩
  | .rectObj r _ _ _ => r
  | .circle c m _ _ => circleRect c m

/-- `obj.Center()`. -/
def GeoObject.center : GeoObject → GPoint
  | .str _ => ⟨0, 0⟩
  | .rectObj r _ _ _ => ⟨(r.min.x + r.max.x) / 2, (r.min.y + r.max.y) / 2⟩
  | .circle c _ _ _ => c

/-- `o.Within(target)` on bounding rectangles. -/
def GeoObject.within (o target : GeoObject) : Bool :=
  rectWithin o.rect target.rect

/-- `o.Intersects(target)` on bounding rectangles. -/
def GeoObject.intersects (o target : GeoObject) : Bool :=
  rectIntersects o.rect target.rect

/-- An item stored in the collection (`itemT`): an id together with its
geometry value. -/
structure itemT where
  id : String
  obj : GeoObject
  deriving DecidableEq

/-- The comparator of the id-ordered tree (`byID`). -/
def byID (a b : itemT) : Bool :=
  decide (a.id < b.id)

/-- The comparator of the value-ordered tree (`byValue`): by string form of
the value, ids breaking ties. -/
def byValue (a b : itemT) : Bool :=
  let value1 := a.obj.string
  let value2 := b.obj.string
  if value1 < value2 then true
  else if value1 > value2 then false
  else byID a b

/-! ## Association lists (Go maps) -/

/-- Lookup in an association list (a Go map read). -/
def alGet {α : Type} : List (String × α) → String → Option α
  | [], _ => none
  | (k', v) :: rest, k => if k' = k then some v else alGet rest k

/-- Insert or replace in an association list (a Go map write). -/
def alSet {α : Type} : List (String × α) → String → α → List (String × α)
  | [], k, v => [(k, v)]
  | (k', v') :: rest, k, v =>
      if k' = k then (k, v) :: rest else (k', v') :: alSet rest k v

/-- Remove a key from an association list (a Go map delete). -/
def alDel {α : Type} (l : List (String × α)) (k : String) : List (String × α) :=
  l.filter (fun p => p.1 ≠ k)

/-! ## The ordered trees

`btree.New(less)` keeps its items strictly sorted by `less`.  The tree is
modelled by its sorted list of items; `Set`/`Delete`/`Get` walk that list
guided by the comparator. -/

/-- `tr.Set(x)`: insert `x`, replacing and returning the item that compares
equal to it, if any. -/
def btreeSet (less : itemT → itemT → Bool) : List itemT → itemT → List itemT × Option itemT
  | [], x => ([x], none)
  | y :: ys, x =>
      if less y x then
        let r := btreeSet less ys x
        (y :: r.1, r.2)
      else if less x y then (x :: y :: ys, none)
      else (x :: ys, some y)

/-- `tr.Delete(x)`: remove and return the item comparing equal to `x`. -/
def btreeDelete (less : itemT → itemT → Bool) : List itemT → itemT → List itemT × Option itemT
  | [], _ => ([], none)
  | y :: ys, x =>
      if less y x then
        let r := btreeDelete less ys x
        (y :: r.1, r.2)
      else if less x y then (y :: ys, none)
      else (ys, some y)

/-- `tr.Get(x)`: the item comparing equal to `x`, if present. -/
def btreeGet (less : itemT → itemT → Bool) : List itemT → itemT → Option itemT
  | [], _ => none
  | y :: ys, x =>
      if less y x then btreeGet less ys x
      else if less x y then none
      else some y

/-- `tr.Ascend(pivot, _)` visits the items `≥ pivot` in ascending order
(`nil` pivot: all items). -/
def ascendFrom (less : itemT → itemT → Bool) (l : List itemT) : Option itemT → List itemT
  | none => l
  | some p => l.filter (fun t => !less t p)

/-- `tr.Descend(pivot, _)` visits the items `≤ pivot` in descending order
(`nil` pivot: all items). -/
def descendFrom (less : itemT → itemT → Bool) (l : List itemT) : Option itemT → List itemT
  | none => l.reverse
  | some p => (l.filter (fun t => !less p t)).reverse

/-- Run a stateful callback over the items of a traversal, stopping when it
returns `false` (the shape of all `Ascend`/`Descend`/`Search` callbacks). -/
def btIter {τ : Type} (f : τ → itemT → τ × Bool) : τ → List itemT → τ
  | s, [] => s
  | s, x :: xs =>
      let r := f s x
      if r.2 then btIter f r.1 xs else r.1

/-! ## The spatial index

`geoindex.Wrap(&rtree.RTree{})` stores `(min, max, item)` entries;
enumeration order of `Search` is unspecified, so the index is modelled by
its list of entries in insertion order. -/

/-- One R-tree entry: the stored rectangle and the item handle. -/
structure REntry where
  rect : GRect
  item : itemT
  deriving DecidableEq

/-- `index.Search(min, max, visit)`: visit every entry whose rectangle
overlaps the query rectangle, stopping when the callback returns `false`. -/
def rtreeSearch {τ : Type} (entries : List REntry) (q : GRect)
    (visit : τ → itemT → τ × Bool) : τ → τ
  | s =>
    match entries with
    | [] => s
    | e :: rest =>
        if rectIntersects e.rect q then
          let r := visit s e.item
          if r.2 then rtreeSearch rest q visit r.1 else r.1
        else rtreeSearch rest q visit s

/-- Squared minimum Euclidean distance from a point to a rectangle (the
`nearby` priority; comparing squared distances orders like distances). -/
def minDistSq (p : GPoint) (r : GRect) : ℚ :=
  let dx := max (max (r.min.x - p.x) 0) (p.x - r.max.x)
  let dy := max (max (r.min.y - p.y) 0) (p.y - r.max.y)
  dx * dx + dy * dy

/-- `index.Nearby(center, _)` yields the entries in non-decreasing minimum
distance from the query point. -/
def rtreeNearby (entries : List REntry) (p : GPoint) : List REntry :=
  entries.mergeSort (fun a b => decide (minDistSq p a.rect ≤ minDistSq p b.rect))

/-- `index.Bounds()`: the enclosing rectangle of all entries
(zeros when empty, matching the `len` guard in `Collection.Bounds`). -/
def rtreeBounds (entries : List REntry) : ℚ × ℚ × ℚ × ℚ :=
  match entries with
  | [] => (0, 0, 0, 0)
  | e :: rest =>
      rest.foldl
        (fun b f =>
          (min b.1 f.rect.min.x, min b.2.1 f.rect.min.y,
           max b.2.2.1 f.rect.max.x, max b.2.2.2 f.rect.max.y))
        (e.rect.min.x, e.rect.min.y, e.rect.max.x, e.rect.max.y)

/-! ## The collection -/

/-- `Collection`: the three indexes, the field table and the aggregate
counters. -/
structure Collection where
  items : List itemT
  index : List REntry
  values : List itemT
  fieldMap : List (String × Nat)
  fieldArr : List String
  fieldValues : List (String × List ℚ)
  weight : Int
  points : Int
  objects : Int
  nobjects : Int
  deriving DecidableEq

namespace Collection

/-- `New()`: the empty collection. -/
def New : Collection :=
  ⟨[], [], [], [], [], [], 0, 0, 0, 0⟩

/-- `c.setFieldValues(id, values)`. -/
def setFieldValues (c : Collection) (id : String) (values : List ℚ) : Collection :=
  { c with fieldValues := alSet c.fieldValues id values }

/-- `c.getFieldValues(id)`: a missing id reads as the empty row. -/
def getFieldValues (c : Collection) (id : String) : List ℚ :=
  (alGet c.fieldValues id).getD []

/-- `c.deleteFieldValues(id)`. -/
def deleteFieldValues (c : Collection) (id : String) : Collection :=
  { c with fieldValues := alDel c.fieldValues id }

/-- `Count()`: number of objects in the collection. -/
def Count (c : Collection) : Int :=
  c.objects + c.nobjects

/-- `StringCount()`: number of string (non-spatial) values. -/
def StringCount (c : Collection) : Int :=
  c.nobjects

/-- `PointCount()`: number of point coordinates in the collection. -/
def PointCount (c : Collection) : Int :=
  c.points

/-- `TotalWeight()`: the in-memory cost proxy. -/
def TotalWeight (c : Collection) : Int :=
  c.weight

/-- `Bounds()`: bounds of all items, `(minX, minY, maxX, maxY)`. -/
def Bounds (c : Collection) : ℚ × ℚ × ℚ × ℚ :=
  rtreeBounds c.index

/-- `FieldMap()`. -/
def FieldMap (c : Collection) : List (String × Nat) :=
  c.fieldMap

/-- `FieldArr()`. -/
def FieldArr (c : Collection) : List String :=
  c.fieldArr

/-- `objIsSpatial(obj)`: whether the value implements `geojson.Spatial`. -/
def objIsSpatial : GeoObject → Bool
  | .str _ => false
  | .rectObj _ _ _ _ => true
  | .circle _ _ _ _ => true

/-- `c.objWeight(item)`: point count times 16 for spatial values, string
length otherwise, plus 8 bytes per field-row slot, plus the id length. -/
def objWeight (c : Collection) (item : itemT) : Int :=
  (if objIsSpatial item.obj then (item.obj.numPoints : Int) * 16
   else (item.obj.string.length : Int))
  + ((getFieldValues c item.id).length : Int) * 8 + (item.id.length : Int)

/-- `c.indexDelete(item)`: remove a non-empty item from the R-tree. -/
def indexDelete (c : Collection) (item : itemT) : Collection :=
  if !item.obj.empty then
    { c with index := c.index.erase ⟨item.obj.rect, item⟩ }
  else c

/-- `c.indexInsert(item)`: insert a non-empty item into the R-tree. -/
def indexInsert (c : Collection) (item : itemT) : Collection :=
  if !item.obj.empty then
    { c with index := c.index ++ [⟨item.obj.rect, item⟩] }
  else c

/-! ## The field table -/

/-- The body of the `bsearch` loop, with an explicit iteration bound: each
pass shrinks `j - i` by at least one, so `j - i` passes always reach
`i = j`. -/
def bsearchGo (arr : List String) (val : String) : Nat → Nat → Nat → Nat
  | 0, i, _ => i
  | fuel + 1, i, j =>
      if i < j then
        let m := i + (j - i) / 2
        if arr.getD m "" ≤ val then bsearchGo arr val fuel (m + 1) j
        else bsearchGo arr val fuel i m
      else i

/-- The loop of `bsearch`: binary search for the upper bound of `val` in
`arr[i:j]`. -/
def bsearchLoop (arr : List String) (val : String) (i j : Nat) : Nat :=
  bsearchGo arr val (j - i) i j

/-- `bsearch(arr, val)`: the index of `val` when found, otherwise its
insertion point. -/
def bsearch (arr : List String) (val : String) : Nat × Bool :=
  let i := bsearchLoop arr val 0 arr.length
  if 0 < i ∧ val ≤ arr.getD (i - 1) "" then (i - 1, true) else (i, false)

/-- `c.addToFieldArr(field)`: insert a new name at its sorted position (the
Go `append`/`copy` shift is an insertion at `index`). -/
def addToFieldArr (arr : List String) (field : String) : List String :=
  let r := bsearch arr field
  if r.2 then arr else arr.insertIdx r.1 field

/-- The `for idx >= len(fields)` loop of `setField`: extend the row with
zeros until the column exists (the loop appends exactly one zero per pass
until the length first exceeds `idx`). -/
def growFields (fields : List ℚ) (idx : Nat) : List ℚ :=
  fields ++ List.replicate (idx + 1 - fields.length) 0

/-- `c.setField(item, field, value)`: ensure the column exists, extend the
row, write the value, and report whether the stored value changed. -/
def setField (c : Collection) (item : itemT) (field : String) (value : ℚ) :
    Collection × Bool :=
  let p : Collection × Nat :=
    match alGet c.fieldMap field with
    | some idx => (c, idx)
    | none =>
        let idx := c.fieldMap.length
        ({ c with fieldMap := c.fieldMap ++ [(field, idx)],
                  fieldArr := addToFieldArr c.fieldArr field }, idx)
  let c := p.1
  let idx := p.2
  let fields := getFieldValues c item.id
  let c := { c with weight := c.weight - (fields.length : Int) * 8 }
  let fields := growFields fields idx
  let c := { c with weight := c.weight + (fields.length : Int) * 8 }
  let ovalue := fields.getD idx 0
  let fields := fields.set idx value
  let c := setFieldValues c item.id fields
  (c, decide (ovalue ≠ value))

/-- The `for i, field := range fields` loop shared by `Set` and `SetFields`:
apply `setField` for each name, reading `values[i]`; running out of values
is an index-out-of-range panic (`Except.error` carries the collection state
at the panic). -/
def setFieldsLoop (item : itemT) :
    Collection → List String → List ℚ → Nat → Except Collection (Collection × Nat)
  | c, [], _, n => .ok (c, n)
  | c, _ :: _, [], _ => .error c
  | c, f :: fs, v :: vs, n =>
      let r := setField c item f v
      setFieldsLoop item r.1 fs vs (if r.2 then n + 1 else n)

/-! ## Mutations -/

/-- The old-item half of `Set`: the displaced item is removed from the
rtree or the strings tree and its counter, point and weight contributions
are subtracted. -/
def setRemoveOld (c : Collection) (oldItem : itemT) : Collection :=
  let c :=
    if objIsSpatial oldItem.obj then
      let c := indexDelete c oldItem
      { c with objects := c.objects - 1 }
    else
      let c := { c with values := (btreeDelete byValue c.values oldItem).1 }
      { c with nobjects := c.nobjects - 1 }
  -- decrement the point count and the weight
  let c := { c with points := c.points - (oldItem.obj.numPoints : Int) }
  { c with weight := c.weight - objWeight c oldItem }

/-- The new-item half of `Set`: the item goes into the rtree or the strings
tree and its counter, point and weight contributions are added. -/
def setInsertNew (c : Collection) (newItem : itemT) : Collection :=
  let c :=
    if objIsSpatial newItem.obj then
      let c := indexInsert c newItem
      { c with objects := c.objects + 1 }
    else
      let c := { c with values := (btreeSet byValue c.values newItem).1 }
      { c with nobjects := c.nobjects + 1 }
  -- increment the point count, add the new weight
  let c := { c with points := c.points + (newItem.obj.numPoints : Int) }
  { c with weight := c.weight + objWeight c newItem }

/-- The index-maintenance part of `Set`, before field handling: upsert into
the key index, move the displaced item out of and the new item into the
side indexes, and fix every counter.  Returns the old object and the old
field row. -/
def setCore (c : Collection) (newItem : itemT) :
    Collection × Option GeoObject × List ℚ :=
  -- add the new item to the main btree and remove the old one if needed
  let r := btreeSet byID c.items newItem
  let c := { c with items := r.1 }
  let p : Collection × Option GeoObject × List ℚ :=
    match r.2 with
    | none => (c, none, [])
    | some oldItem =>
        let c := setRemoveOld c oldItem
        (c, some oldItem.obj, getFieldValues c newItem.id)
  (setInsertNew p.1 newItem, p.2.1, p.2.2)

/-- `Set(id, obj, fields, values)`: add or replace an object; returns the
old object, the old fields and the new fields.  A `fields` list longer than
`values` makes the field loop panic partway (`Except.error`). -/
def Set (c : Collection) (id : String) (obj : GeoObject)
    (fields : Option (List String)) (values : List ℚ) :
    Except Collection (Collection × Option GeoObject × List ℚ × List ℚ) :=
  let newItem : itemT := ⟨id, obj⟩
  let q := setCore c newItem
  let c := q.1
  let oldObject := q.2.1
  let oldFields := q.2.2
  let newFields := oldFields
  match fields with
  | none =>
      if values.length > 0 then
        -- directly set the field values, update weight
        let c := { c with weight := c.weight - (newFields.length : Int) * 8 }
        let newFields := values
        let c := setFieldValues c id newFields
        let c := { c with weight := c.weight + (newFields.length : Int) * 8 }
        .ok (c, oldObject, oldFields, newFields)
      else .ok (c, oldObject, oldFields, newFields)
  | some fieldNames =>
      match setFieldsLoop newItem c fieldNames values 0 with
      | .error cp => .error cp
      | .ok (c, _) => .ok (c, oldObject, oldFields, getFieldValues c id)

/-- `Delete(id)`: remove an object and return it, with its fields and an
`ok` flag. -/
def Delete (c : Collection) (id : String) :
    Collection × Option GeoObject × List ℚ × Bool :=
  let r := btreeDelete byID c.items ⟨id, .str ""⟩
  match r.2 with
  | none => (c, none, [], false)
  | some oldItem =>
      let c := { c with items := r.1 }
      let c :=
        if objIsSpatial oldItem.obj then
          let c := if !oldItem.obj.empty then indexDelete c oldItem else c
          { c with objects := c.objects - 1 }
        else
          let c := { c with values := (btreeDelete byValue c.values oldItem).1 }
          { c with nobjects := c.nobjects - 1 }
      let c := { c with weight := c.weight - objWeight c oldItem }
      let c := { c with points := c.points - (oldItem.obj.numPoints : Int) }
      let fields := getFieldValues c id
      let c := deleteFieldValues c id
      (c, some oldItem.obj, fields, true)

/-- `Get(id)`: look an object up. -/
def Get (c : Collection) (id : String) : Option GeoObject × List ℚ × Bool :=
  match btreeGet byID c.items ⟨id, .str ""⟩ with
  | none => (none, [], false)
  | some item => (some item.obj, getFieldValues c id, true)

/-- `SetField(id, field, value)`: set one field of an object; returns the
object, its fields, the `updated` flag, and an `ok` flag. -/
def SetField (c : Collection) (id field : String) (value : ℚ) :
    Collection × Option GeoObject × List ℚ × Bool × Bool :=
  match btreeGet byID c.items ⟨id, .str ""⟩ with
  | none => (c, none, [], false, false)
  | some item =>
      let r := setField c item field value
      (r.1, some item.obj, getFieldValues r.1 id, r.2, true)

/-- `SetFields(id, inFields, inValues)`: set several fields at once,
counting the columns whose value actually changed.  Like `Set`, too few
values is an index-out-of-range panic. -/
def SetFields (c : Collection) (id : String)
    (inFields : List String) (inValues : List ℚ) :
    Except Collection (Collection × Option GeoObject × List ℚ × Nat × Bool) :=
  match btreeGet byID c.items ⟨id, .str ""⟩ with
  | none => .ok (c, none, [], 0, false)
  | some item =>
      match setFieldsLoop item c inFields inValues 0 with
      | .error cp => .error cp
      | .ok (c, updatedCount) =>
          .ok (c, some item.obj, getFieldValues c id, updatedCount, true)

/-! ## Traversals

Go iterator closures mutate captured locals (`count`, `keepon`, `alive`,
`matches`); the embedding threads that captured state explicitly, and the
caller's visitor is a state-passing function over an arbitrary state type.
`nextStep` only advances the caller-owned cursor and yields to the
scheduler checking a nil-able deadline, so it does not appear in the
translated bodies (traversals are embedded with a nil deadline). -/

/-- The visitor contract `(id, obj, fields) → keepon`, threading the
visitor's own state. -/
abbrev Visitor (σ : Type) := σ → String → GeoObject → List ℚ → σ × Bool

/-- The offset reported by a cursor (`nil` cursor: zero). -/
def cursorOffset : Option Nat → Nat
  | none => 0
  | some n => n

/-- `Scan`: iterate the collection ids. -/
def Scan {σ : Type} (c : Collection) (desc : Bool) (cursor : Option Nat)
    (iterator : Visitor σ) (s0 : σ) : σ × Bool :=
  let offset := cursorOffset cursor
  let step : (σ × Bool × Nat) → itemT → (σ × Bool × Nat) × Bool := fun st item =>
    let count := st.2.2 + 1
    if count ≤ offset then ((st.1, st.2.1, count), true)
    else
      let r := iterator st.1 item.id item.obj (getFieldValues c item.id)
      ((r.1, r.2, count), r.2)
  let l := if desc then descendFrom byID c.items none else ascendFrom byID c.items none
  let t := btIter step (s0, true, 0) l
  (t.1, t.2.1)

/-- `ScanRange(start, end, desc, ...)`: iterate from `start`, terminating
when the current id crosses `end` (strictly before `end` ascending,
strictly after `end` descending). -/
def ScanRange {σ : Type} (c : Collection) (start endv : String) (desc : Bool)
    (cursor : Option Nat) (iterator : Visitor σ) (s0 : σ) : σ × Bool :=
  let offset := cursorOffset cursor
  let step : (σ × Bool × Nat) → itemT → (σ × Bool × Nat) × Bool := fun st item =>
    let count := st.2.2 + 1
    if count ≤ offset then ((st.1, st.2.1, count), true)
    else if (if !desc then decide (item.id ≥ endv) else decide (item.id ≤ endv)) then
      ((st.1, st.2.1, count), false)
    else
      let r := iterator st.1 item.id item.obj (getFieldValues c item.id)
      ((r.1, r.2, count), r.2)
  let pivot : itemT := ⟨start, .str ""⟩
  let l := if desc then descendFrom byID c.items (some pivot)
           else ascendFrom byID c.items (some pivot)
  let t := btIter step (s0, true, 0) l
  (t.1, t.2.1)

/-- `SearchValues`: iterate the collection values in `(string form, id)`
order. -/
def SearchValues {σ : Type} (c : Collection) (desc : Bool) (cursor : Option Nat)
    (iterator : Visitor σ) (s0 : σ) : σ × Bool :=
  let offset := cursorOffset cursor
  let step : (σ × Bool × Nat) → itemT → (σ × Bool × Nat) × Bool := fun st item =>
    let count := st.2.2 + 1
    if count ≤ offset then ((st.1, st.2.1, count), true)
    else
      let r := iterator st.1 item.id item.obj (getFieldValues c item.id)
      ((r.1, r.2, count), r.2)
  let l := if desc then descendFrom byValue c.values none
           else ascendFrom byValue c.values none
  let t := btIter step (s0, true, 0) l
  (t.1, t.2.1)

/-- `SearchValuesRange(start, end, desc, ...)`: iterate values between the
sentinel items built from the `start` and `end` strings, stopping when the
tree's own comparator says the current item crossed the `end` sentinel. -/
def SearchValuesRange {σ : Type} (c : Collection) (start endv : String) (desc : Bool)
    (cursor : Option Nat) (iterator : Visitor σ) (s0 : σ) : σ × Bool :=
  let offset := cursorOffset cursor
  let step : (σ × Bool × Nat) → itemT → (σ × Bool × Nat) × Bool := fun st item =>
    let count := st.2.2 + 1
    if count ≤ offset then ((st.1, st.2.1, count), true)
    else
      let r := iterator st.1 item.id item.obj (getFieldValues c item.id)
      ((r.1, r.2, count), r.2)
  let pstart : itemT := ⟨"", .str start⟩
  let pend : itemT := ⟨"", .str endv⟩
  let t :=
    if desc then
      -- descend range: continue while pend < item
      btIter (fun st item => if byValue pend item then step st item else (st, false))
        (s0, true, 0) (descendFrom byValue c.values (some pstart))
    else
      -- ascend range: continue while item < pend
      btIter (fun st item => if byValue item pend then step st item else (st, false))
        (s0, true, 0) (ascendFrom byValue c.values (some pstart))
  (t.1, t.2.1)

/-- `ScanGreaterOrEqual(id, desc, ...)`: iterate ids starting at a pivot. -/
def ScanGreaterOrEqual {σ : Type} (c : Collection) (id : String) (desc : Bool)
    (cursor : Option Nat) (iterator : Visitor σ) (s0 : σ) : σ × Bool :=
  let offset := cursorOffset cursor
  let step : (σ × Bool × Nat) → itemT → (σ × Bool × Nat) × Bool := fun st item =>
    let count := st.2.2 + 1
    if count ≤ offset then ((st.1, st.2.1, count), true)
    else
      let r := iterator st.1 item.id item.obj (getFieldValues c item.id)
      ((r.1, r.2, count), r.2)
  let pivot : itemT := ⟨id, .str ""⟩
  let l := if desc then descendFrom byID c.items (some pivot)
           else ascendFrom byID c.items (some pivot)
  let t := btIter step (s0, true, 0) l
  (t.1, t.2.1)

/-! ## Spatial queries -/

/-- `c.geoSearch(rect, iter)`: search the R-tree, feeding each hit to the
visitor; `alive` is the last visitor result. -/
def geoSearch {σ : Type} (c : Collection) (rect : GRect)
    (iter : Visitor σ) (s0 : σ) : σ × Bool :=
  rtreeSearch c.index rect
    (fun (st : σ × Bool) item =>
      let r := iter st.1 item.id item.obj (getFieldValues c item.id)
      ((r.1, r.2), r.2))
    (s0, true)

/-- A sparse visitor returns `(match, ok)`. -/
abbrev SparseVisitor (σ : Type) := σ → String → GeoObject → List ℚ → σ × Bool × Bool

/-- `c.geoSparseInner(rect, sparse, iter)`: recursively split the rectangle
into the NW, NE, SW, SE quadrants down to depth `sparse`; at a leaf, run a
standard search that stops the leaf after a match and aborts on `!ok`. -/
def geoSparseInner {σ : Type} (c : Collection) (rect : GRect) (sparse : Nat)
    (iter : SparseVisitor σ) (s : σ) : σ × Bool :=
  match sparse with
  | sp + 1 =>
      let w := rect.max.x - rect.min.x
      let h := rect.max.y - rect.min.y
      let q1 : GRect := ⟨⟨rect.min.x, rect.min.y + h / 2⟩, ⟨rect.min.x + w / 2, rect.max.y⟩⟩
      let q2 : GRect := ⟨⟨rect.min.x + w / 2, rect.min.y + h / 2⟩, ⟨rect.max.x, rect.max.y⟩⟩
      let q3 : GRect := ⟨⟨rect.min.x, rect.min.y⟩, ⟨rect.min.x + w / 2, rect.min.y + h / 2⟩⟩
      let q4 : GRect := ⟨⟨rect.min.x + w / 2, rect.min.y⟩, ⟨rect.max.x, rect.min.y + h / 2⟩⟩
      let r1 := geoSparseInner c q1 sp iter s
      if !r1.2 then (r1.1, false) else
      let r2 := geoSparseInner c q2 sp iter r1.1
      if !r2.2 then (r2.1, false) else
      let r3 := geoSparseInner c q3 sp iter r2.1
      if !r3.2 then (r3.1, false) else
      let r4 := geoSparseInner c q4 sp iter r3.1
      if !r4.2 then (r4.1, false) else (r4.1, true)
  | 0 =>
      -- leaf: alive flips on `!ok`; the geoSearch result itself is unused
      let t := geoSearch c rect
        (fun (st : σ × Bool) id o fl =>
          let r := iter st.1 id o fl
          if !r.2.2 then ((r.1, false), false)
          else ((r.1, st.2), !r.2.1))
        (s, true)
      (t.1.1, t.1.2)

/-- `c.geoSparse(obj, sparse, iter)`: de-duplicate matches across
overlapping quadrant coverage; its `alive` result is initialized `true` and
never reassigned (the `geoSparseInner` result is discarded). -/
def geoSparse {σ : Type} (c : Collection) (obj : GeoObject) (sparse : Nat)
    (iter : SparseVisitor σ) (s0 : σ) : σ × Bool :=
  let step : (σ × List String) → String → GeoObject → List ℚ →
      (σ × List String) × Bool × Bool := fun st id o fl =>
    -- ok = true; fresh ids go to the caller's visitor, matches are recorded
    if st.2.contains id then ((st.1, st.2), false, true)
    else
      let r := iter st.1 id o fl
      ((r.1, if r.2.1 then id :: st.2 else st.2), r.2.1, r.2.2)
  let t := geoSparseInner c obj.rect sparse step (s0, [])
  (t.1.1, true)

/-- `Within(obj, sparse, ...)`: all objects fully contained in `obj`. -/
def Within {σ : Type} (c : Collection) (obj : GeoObject) (sparse : Nat)
    (cursor : Option Nat) (iter : Visitor σ) (s0 : σ) : σ × Bool :=
  let offset := cursorOffset cursor
  if sparse > 0 then
    let t := geoSparse c obj sparse
      (fun (st : σ × Nat) id o fl =>
        let count := st.2 + 1
        if count ≤ offset then ((st.1, count), false, true)
        else
          -- named returns: ok stays false unless the visitor runs
          if GeoObject.within o obj then
            let r := iter st.1 id o fl
            ((r.1, count), true, r.2)
          else ((st.1, count), false, false))
      (s0, 0)
    (t.1.1, t.2)
  else
    let t := geoSearch c obj.rect
      (fun (st : σ × Nat) id o fl =>
        let count := st.2 + 1
        if count ≤ offset then ((st.1, count), true)
        else if GeoObject.within o obj then
          let r := iter st.1 id o fl
          ((r.1, count), r.2)
        else ((st.1, count), true))
      (s0, 0)
    (t.1.1, t.2)

/-- `Intersects(obj, sparse, ...)`: all objects intersecting `obj`. -/
def Intersects {σ : Type} (c : Collection) (obj : GeoObject) (sparse : Nat)
    (cursor : Option Nat) (iter : Visitor σ) (s0 : σ) : σ × Bool :=
  let offset := cursorOffset cursor
  if sparse > 0 then
    let t := geoSparse c obj sparse
      (fun (st : σ × Nat) id o fl =>
        let count := st.2 + 1
        if count ≤ offset then ((st.1, count), false, true)
        else
          if GeoObject.intersects o obj then
            let r := iter st.1 id o fl
            ((r.1, count), true, r.2)
          else ((st.1, count), false, false))
      (s0, 0)
    (t.1.1, t.2)
  else
    let t := geoSearch c obj.rect
      (fun (st : σ × Nat) id o fl =>
        let count := st.2 + 1
        if count ≤ offset then ((st.1, count), true)
        else if GeoObject.intersects o obj then
          let r := iter st.1 id o fl
          ((r.1, count), r.2)
        else ((st.1, count), true))
      (s0, 0)
    (t.1.1, t.2)

/-- `Nearby(target, ...)`: k-nearest-neighbor traversal, with the circle
fast-fail probe before anything else. -/
def Nearby {σ : Type} (c : Collection) (target : GeoObject)
    (cursor : Option Nat) (iter : Visitor σ) (s0 : σ) : σ × Bool :=
  -- fast-fail: probe the circle's outer rectangle for one candidate
  let fastNeg : Bool :=
    match target with
    | .circle center meters _ _ =>
        if meters > 0 then
          let r := rectFromCenter center.y center.x meters
          !(c.index.any (fun e => rectIntersects e.rect ⟨⟨r.2.1, r.1⟩, ⟨r.2.2.2, r.2.2.1⟩⟩))
        else false
    | _ => false
  if fastNeg then (s0, true)
  else
    let center := target.center
    let offset := cursorOffset cursor
    let step : (σ × Bool × Nat) → itemT → (σ × Bool × Nat) × Bool := fun st item =>
      let count := st.2.2 + 1
      if count ≤ offset then ((st.1, st.2.1, count), true)
      else
        let r := iter st.1 item.id item.obj (getFieldValues c item.id)
        ((r.1, r.2, count), r.2)
    let t := btIter step (s0, true, 0) ((rtreeNearby c.index center).map (·.item))
    (t.1, t.2.1)

/-! ## Operation sequences -/

/-- One mutation: a `Set`, `Delete`, `SetField` or `SetFields` call. -/
inductive Op where
  | set (id : String) (obj : GeoObject) (fields : Option (List String)) (values : List ℚ)
  | del (id : String)
  | setFieldOp (id field : String) (value : ℚ)
  | setFieldsOp (id : String) (inFields : List String) (inValues : List ℚ)

/-- Run one mutation.  A panicking call (recovered by the server) leaves the
collection in the state it had reached at the panic. -/
def applyOp (c : Collection) : Op → Collection
  | .set id obj fields values =>
      match Set c id obj fields values with
      | .ok r => r.1
      | .error cp => cp
  | .del id => (Delete c id).1
  | .setFieldOp id f v => (SetField c id f v).1
  | .setFieldsOp id fs vs =>
      match SetFields c id fs vs with
      | .ok r => r.1
      | .error cp => cp

/-- Run a sequence of mutations. -/
def applyOps (c : Collection) (ops : List Op) : Collection :=
  ops.foldl applyOp c

/-! ## Read-only operations as a dispatcher

Go methods receive the collection by pointer; the translation of a method
returns the (possibly updated) collection next to its result.  None of the
query or observer bodies assigns a collection field, so each branch passes
the receiver through. -/

/-- The result of one read-only operation. -/
inductive QueryOut (σ : Type) where
  | getOut (obj : Option GeoObject) (fields : List ℚ) (ok : Bool)
  | iterOut (s : σ) (alive : Bool)
  | intOut (n : Int)
  | boundsOut (b : ℚ × ℚ × ℚ × ℚ)
  | mapOut (m : List (String × Nat))
  | arrOut (a : List String)

/-- One read-only operation: a query traversal or an aggregate/schema
observer, with its arguments. -/
inductive QueryOp (σ : Type) where
  | get (id : String)
  | scan (desc : Bool) (cursor : Option Nat) (f : Visitor σ) (s0 : σ)
  | scanRange (start endv : String) (desc : Bool) (cursor : Option Nat) (f : Visitor σ) (s0 : σ)
  | scanGE (id : String) (desc : Bool) (cursor : Option Nat) (f : Visitor σ) (s0 : σ)
  | searchValues (desc : Bool) (cursor : Option Nat) (f : Visitor σ) (s0 : σ)
  | searchValuesRange (start endv : String) (desc : Bool) (cursor : Option Nat) (f : Visitor σ) (s0 : σ)
  | withinQ (obj : GeoObject) (sparse : Nat) (cursor : Option Nat) (f : Visitor σ) (s0 : σ)
  | intersectsQ (obj : GeoObject) (sparse : Nat) (cursor : Option Nat) (f : Visitor σ) (s0 : σ)
  | nearbyQ (target : GeoObject) (cursor : Option Nat) (f : Visitor σ) (s0 : σ)
  | countQ
  | stringCountQ
  | pointCountQ
  | totalWeightQ
  | boundsQ
  | fieldMapQ
  | fieldArrQ

/-- Run one read-only operation, threading the receiver like every other
translated method. -/
def applyQuery {σ : Type} (c : Collection) : QueryOp σ → QueryOut σ × Collection
  | .get id => let r := Get c id; (.getOut r.1 r.2.1 r.2.2, c)
  | .scan d cur f s0 => let r := Scan c d cur f s0; (.iterOut r.1 r.2, c)
  | .scanRange a b d cur f s0 => let r := ScanRange c a b d cur f s0; (.iterOut r.1 r.2, c)
  | .scanGE id d cur f s0 => let r := ScanGreaterOrEqual c id d cur f s0; (.iterOut r.1 r.2, c)
  | .searchValues d cur f s0 => let r := SearchValues c d cur f s0; (.iterOut r.1 r.2, c)
  | .searchValuesRange a b d cur f s0 =>
      let r := SearchValuesRange c a b d cur f s0; (.iterOut r.1 r.2, c)
  | .withinQ o sp cur f s0 => let r := Within c o sp cur f s0; (.iterOut r.1 r.2, c)
  | .intersectsQ o sp cur f s0 => let r := Intersects c o sp cur f s0; (.iterOut r.1 r.2, c)
  | .nearbyQ t cur f s0 => let r := Nearby c t cur f s0; (.iterOut r.1 r.2, c)
  | .countQ => (.intOut (Count c), c)
  | .stringCountQ => (.intOut (StringCount c), c)
  | .pointCountQ => (.intOut (PointCount c), c)
  | .totalWeightQ => (.intOut (TotalWeight c), c)
  | .boundsQ => (.boundsOut (Bounds c), c)
  | .fieldMapQ => (.mapOut (FieldMap c), c)
  | .fieldArrQ => (.arrOut (FieldArr c), c)

/-! ## Comparator facts -/

theorem byID_iff (a b : itemT) : byID a b = true ↔ a.id < b.id := by
  simp [byID]

theorem byID_false_iff (a b : itemT) : byID a b = false ↔ ¬ a.id < b.id := by
  simp [byID]

theorem byValue_iff (a b : itemT) :
    byValue a b = true ↔
      a.obj.string < b.obj.string ∨ (a.obj.string = b.obj.string ∧ a.id < b.id) := by
  simp only [byValue, byID]
  rcases lt_trichotomy a.obj.string b.obj.string with h | h | h
  · simp [h]
  · simp [h, lt_irrefl]
  · simp [h, not_lt_of_lt h, lt_asymm h, ne_of_gt h]

/-- The order laws the tree lemmas need from a comparator. -/
structure CompLaws (less : itemT → itemT → Bool) : Prop where
  trans : ∀ {a b c : itemT}, less a b = true → less b c = true → less a c = true
  irrefl : ∀ a, less a a = false
  compat : ∀ {a b : itemT}, less a b = false → less b a = false →
    ∀ z, less a z = less b z ∧ less z a = less z b

theorem byID_keyeq {a b : itemT} (h1 : byID a b = false) (h2 : byID b a = false) :
    a.id = b.id := by
  rw [byID_false_iff] at h1 h2
  exact le_antisymm (not_lt.mp h2) (not_lt.mp h1)

theorem byID_laws : CompLaws byID := by
  refine ⟨?_, ?_, ?_⟩
  · intro a b c hab hbc
    rw [byID_iff] at hab hbc ⊢
    exact lt_trans hab hbc
  · intro a
    simp [byID]
  · intro a b h1 h2 z
    have h := byID_keyeq h1 h2
    simp [byID, h]

theorem byValue_false_iff (a b : itemT) :
    byValue a b = false ↔
      ¬ (a.obj.string < b.obj.string ∨ (a.obj.string = b.obj.string ∧ a.id < b.id)) := by
  rw [← byValue_iff]
  simp

theorem byValue_keyeq {a b : itemT} (h1 : byValue a b = false) (h2 : byValue b a = false) :
    a.obj.string = b.obj.string ∧ a.id = b.id := by
  rw [byValue_false_iff] at h1 h2
  push_neg at h1 h2
  have hs : a.obj.string = b.obj.string :=
    le_antisymm (not_lt.mp h2.1) (not_lt.mp h1.1)
  exact ⟨hs, le_antisymm (not_lt.mp (h2.2 hs.symm)) (not_lt.mp (h1.2 hs))⟩

theorem byValue_laws : CompLaws byValue := by
  refine ⟨?_, ?_, ?_⟩
  · intro a b c hab hbc
    rw [byValue_iff] at hab hbc ⊢
    rcases hab with h | ⟨he, hi⟩ <;> rcases hbc with h' | ⟨he', hi'⟩
    · exact Or.inl (lt_trans h h')
    · exact Or.inl (he' ▸ h)
    · exact Or.inl (he ▸ h')
    · exact Or.inr ⟨he.trans he', lt_trans hi hi'⟩
  · intro a
    rw [byValue_false_iff]
    simp
  · intro a b h1 h2 z
    obtain ⟨hs, hi⟩ := byValue_keyeq h1 h2
    constructor <;> simp [byValue, byID, hs, hi]

/-! ## Tree-model lemmas

All on lists strictly sorted by the comparator (`List.Pairwise`), which is
how the model represents a `btree.BTree`. -/

theorem btreeSet_mem {less : itemT → itemT → Bool} {l : List itemT} {x z : itemT}
    (hz : z ∈ (btreeSet less l x).1) : z = x ∨ z ∈ l := by
  induction l with
  | nil => simpa [btreeSet] using hz
  | cons y ys ih =>
      simp only [btreeSet] at hz
      split at hz
      · rcases List.mem_cons.mp hz with h | h
        · exact Or.inr (h ▸ List.mem_cons_self y ys)
        · rcases ih h with h' | h'
          · exact Or.inl h'
          · exact Or.inr (List.mem_cons_of_mem y h')
      · split at hz
        · rcases List.mem_cons.mp hz with h | h
          · exact Or.inl h
          · exact Or.inr h
        · rcases List.mem_cons.mp hz with h | h
          · exact Or.inl h
          · exact Or.inr (List.mem_cons_of_mem y h)

theorem btreeSet_sorted {less : itemT → itemT → Bool} (L : CompLaws less)
    {l : List itemT} (x : itemT) (hs : l.Pairwise (fun a b => less a b = true)) :
    (btreeSet less l x).1.Pairwise (fun a b => less a b = true) := by
  induction l with
  | nil => simp [btreeSet]
  | cons y ys ih =>
      rw [List.pairwise_cons] at hs
      simp only [btreeSet]
      split
      · rename_i hyx
        refine List.pairwise_cons.mpr ⟨?_, ih hs.2⟩
        intro z hz
        rcases btreeSet_mem hz with h | h
        · exact h ▸ hyx
        · exact hs.1 z h
      · split
        · rename_i hyx hxy
          refine List.pairwise_cons.mpr ⟨?_, List.pairwise_cons.mpr hs⟩
          intro z hz
          rcases List.mem_cons.mp hz with h | h
          · exact h ▸ hxy
          · exact L.trans hxy (hs.1 z h)
        · rename_i hyx hxy
          refine List.pairwise_cons.mpr ⟨?_, hs.2⟩
          intro z hz
          have := (L.compat (Bool.not_eq_true _ ▸ hyx : less y x = false)
            (Bool.not_eq_true _ ▸ hxy : less x y = false) z).1
          rw [← this]
          exact hs.1 z hz

theorem btreeSet_none_perm {less : itemT → itemT → Bool} {l : List itemT} {x : itemT}
    (h : (btreeSet less l x).2 = none) : (btreeSet less l x).1.Perm (x :: l) := by
  induction l with
  | nil => simp [btreeSet]
  | cons y ys ih =>
      simp only [btreeSet] at h ⊢
      by_cases hyx : less y x = true
      · rw [if_pos hyx] at h ⊢
        exact ((ih h).cons y).trans (List.Perm.swap x y ys)
      · rw [if_neg hyx] at h ⊢
        by_cases hxy : less x y = true
        · rw [if_pos hxy]
        · rw [if_neg hxy] at h
          simp at h

theorem btreeSet_none_nomatch {less : itemT → itemT → Bool} (L : CompLaws less)
    {l : List itemT} {x : itemT} (hs : l.Pairwise (fun a b => less a b = true))
    (h : (btreeSet less l x).2 = none) :
    ∀ z ∈ l, ¬ (less z x = false ∧ less x z = false) := by
  induction l with
  | nil => simp
  | cons y ys ih =>
      rw [List.pairwise_cons] at hs
      simp only [btreeSet] at h
      split at h
      · rename_i hyx
        intro z hz
        rcases List.mem_cons.mp hz with hzy | hzys
        · subst hzy; intro hc; rw [hc.1] at hyx; exact absurd hyx (by simp)
        · exact ih hs.2 h z hzys
      · split at h
        · rename_i hyx hxy
          intro z hz hc
          rcases List.mem_cons.mp hz with hzy | hzys
          · subst hzy; rw [hc.2] at hxy; exact absurd hxy (by simp)
          · have : less x z = true := L.trans (by assumption) (hs.1 z hzys)
            rw [hc.2] at this; simp at this
        · simp at h

theorem btreeSet_some {less : itemT → itemT → Bool} {l : List itemT} {x y : itemT}
    (hs : l.Pairwise (fun a b => less a b = true))
    (h : (btreeSet less l x).2 = some y) :
    y ∈ l ∧ (less y x = false ∧ less x y = false) ∧
      (btreeSet less l x).1.Perm (x :: l.erase y) := by
  induction l with
  | nil => simp [btreeSet] at h
  | cons z zs ih =>
      rw [List.pairwise_cons] at hs
      simp only [btreeSet] at h ⊢
      split at h
      · rename_i hzx
        obtain ⟨hmem, heq, hperm⟩ := ih hs.2 h
        have hzy : z ≠ y := by
          intro hzy; rw [hzy, heq.1] at hzx; simp at hzx
        refine ⟨List.mem_cons_of_mem z hmem, heq, ?_⟩
        rw [List.erase_cons_tail (by simpa using hzy)]
        simp only [hzx, if_true]
        exact ((hperm.cons z).trans (List.Perm.swap x z (zs.erase y)))
      · split at h
        · simp at h
        · rename_i hzx hxz
          obtain rfl : z = y := by injection h
          simp only [if_neg hzx, if_neg hxz, List.erase_cons_head]
          exact ⟨List.mem_cons_self _ _, ⟨by simpa using hzx, by simpa using hxz⟩, List.Perm.refl _⟩

theorem btreeDelete_none {less : itemT → itemT → Bool} {l : List itemT} {x : itemT}
    (h : (btreeDelete less l x).2 = none) : (btreeDelete less l x).1 = l := by
  induction l with
  | nil => simp [btreeDelete]
  | cons y ys ih =>
      simp only [btreeDelete] at h ⊢
      by_cases hyx : less y x = true
      · rw [if_pos hyx] at h ⊢
        rw [ih h]
      · rw [if_neg hyx] at h ⊢
        by_cases hxy : less x y = true
        · rw [if_pos hxy]
        · rw [if_neg hxy] at h
          simp at h

theorem btreeDelete_none_nomatch {less : itemT → itemT → Bool} (L : CompLaws less)
    {l : List itemT} {x : itemT} (hs : l.Pairwise (fun a b => less a b = true))
    (h : (btreeDelete less l x).2 = none) :
    ∀ z ∈ l, ¬ (less z x = false ∧ less x z = false) := by
  induction l with
  | nil => simp
  | cons y ys ih =>
      rw [List.pairwise_cons] at hs
      simp only [btreeDelete] at h
      by_cases hyx : less y x = true
      · rw [if_pos hyx] at h
        intro z hz hc
        rcases List.mem_cons.mp hz with hzy | hzys
        · subst hzy; rw [hc.1] at hyx; simp at hyx
        · exact ih hs.2 h z hzys hc
      · rw [if_neg hyx] at h
        by_cases hxy : less x y = true
        · intro z hz hc
          rcases List.mem_cons.mp hz with hzy | hzys
          · subst hzy; rw [hc.2] at hxy; simp at hxy
          · have : less x z = true := L.trans hxy (hs.1 z hzys)
            rw [hc.2] at this; simp at this
        · rw [if_neg hxy] at h
          simp at h

theorem btreeDelete_some {less : itemT → itemT → Bool} {l : List itemT} {x y : itemT}
    (h : (btreeDelete less l x).2 = some y) :
    y ∈ l ∧ (less y x = false ∧ less x y = false) ∧
      (btreeDelete less l x).1 = l.erase y := by
  induction l with
  | nil => simp [btreeDelete] at h
  | cons z zs ih =>
      simp only [btreeDelete] at h ⊢
      by_cases hzx : less z x = true
      · rw [if_pos hzx] at h ⊢
        obtain ⟨hmem, heq, hrest⟩ := ih h
        have hzy : z ≠ y := by
          intro hzy; rw [hzy, heq.1] at hzx; simp at hzx
        refine ⟨List.mem_cons_of_mem z hmem, heq, ?_⟩
        rw [List.erase_cons_tail (by simpa using hzy), hrest]
      · rw [if_neg hzx] at h ⊢
        by_cases hxz : less x z = true
        · rw [if_pos hxz] at h
          simp at h
        · rw [if_neg hxz] at h ⊢
          obtain rfl : z = y := by injection h
          exact ⟨List.mem_cons_self _ _, ⟨by simpa using hzx, by simpa using hxz⟩,
            (List.erase_cons_head z zs).symm⟩

theorem btreeGet_some {less : itemT → itemT → Bool} {l : List itemT} {x y : itemT}
    (h : btreeGet less l x = some y) :
    y ∈ l ∧ (less y x = false ∧ less x y = false) := by
  induction l with
  | nil => simp [btreeGet] at h
  | cons z zs ih =>
      simp only [btreeGet] at h
      by_cases hzx : less z x = true
      · rw [if_pos hzx] at h
        obtain ⟨hm, he⟩ := ih h
        exact ⟨List.mem_cons_of_mem z hm, he⟩
      · rw [if_neg hzx] at h
        by_cases hxz : less x z = true
        · rw [if_pos hxz] at h; simp at h
        · rw [if_neg hxz] at h
          obtain rfl : z = y := by injection h
          exact ⟨List.mem_cons_self _ _, by simpa using hzx, by simpa using hxz⟩

theorem btreeGet_none_nomatch {less : itemT → itemT → Bool} (L : CompLaws less)
    {l : List itemT} {x : itemT} (hs : l.Pairwise (fun a b => less a b = true))
    (h : btreeGet less l x = none) :
    ∀ z ∈ l, ¬ (less z x = false ∧ less x z = false) := by
  induction l with
  | nil => simp
  | cons y ys ih =>
      rw [List.pairwise_cons] at hs
      simp only [btreeGet] at h
      by_cases hyx : less y x = true
      · rw [if_pos hyx] at h
        intro z hz hc
        rcases List.mem_cons.mp hz with hzy | hzys
        · subst hzy; rw [hc.1] at hyx; simp at hyx
        · exact ih hs.2 h z hzys hc
      · rw [if_neg hyx] at h
        by_cases hxy : less x y = true
        · intro z hz hc
          rcases List.mem_cons.mp hz with hzy | hzys
          · subst hzy; rw [hc.2] at hxy; simp at hxy
          · have : less x z = true := L.trans hxy (hs.1 z hzys)
            rw [hc.2] at this; simp at this
        · rw [if_neg hxy] at h
          simp at h

/-- In a list with pairwise-distinct ids, two members with the same id are
the same item. -/
theorem mem_unique_id {l : List itemT}
    (hs : l.Pairwise (fun a b => byID a b = true)) {y z : itemT}
    (hy : y ∈ l) (hz : z ∈ l) (hid : y.id = z.id) : y = z := by
  induction l with
  | nil => simp at hy
  | cons w ws ih =>
      rw [List.pairwise_cons] at hs
      rcases List.mem_cons.mp hy with hy1 | hy1 <;> rcases List.mem_cons.mp hz with hz1 | hz1
      · rw [hy1, hz1]
      · exfalso
        have := hs.1 z hz1
        rw [byID_iff] at this
        rw [hy1] at hid
        exact absurd (hid ▸ this) (lt_irrefl _)
      · exfalso
        have := hs.1 y hy1
        rw [byID_iff] at this
        rw [hz1] at hid
        exact absurd (hid ▸ this) (lt_irrefl _)
      · exact ih hs.2 hy1 hz1

theorem ids_nodup {l : List itemT}
    (hs : l.Pairwise (fun a b => byID a b = true)) : (l.map itemT.id).Nodup := by
  rw [List.Nodup, List.pairwise_map]
  exact hs.imp (fun h => by rw [byID_iff] at h; exact ne_of_lt h)

/-! ## Association-list lemmas -/

theorem alGet_alSet_self {α : Type} (l : List (String × α)) (k : String) (v : α) :
    alGet (alSet l k v) k = some v := by
  induction l with
  | nil => simp [alGet, alSet]
  | cons p rest ih =>
      by_cases h : p.1 = k
      · simp [alSet, alGet, h]
      · simp [alSet, alGet, h, ih]

theorem alGet_alSet_ne {α : Type} (l : List (String × α)) (k k' : String) (v : α)
    (h : k ≠ k') : alGet (alSet l k v) k' = alGet l k' := by
  induction l with
  | nil => simp [alGet, alSet, h]
  | cons p rest ih =>
      by_cases hp : p.1 = k
      · simp [alSet, alGet, hp, h, ih]
      · simp only [alSet, if_neg hp, alGet]
        by_cases hp' : p.1 = k'
        · simp [hp']
        · simp [hp', ih]

theorem alGet_alDel_self {α : Type} (l : List (String × α)) (k : String) :
    alGet (alDel l k) k = none := by
  induction l with
  | nil => simp [alGet, alDel]
  | cons p rest ih =>
      by_cases h : p.1 = k
      · simpa [alDel, h] using ih
      · simpa [alDel, alGet, h] using ih

theorem alGet_alDel_ne {α : Type} (l : List (String × α)) (k k' : String)
    (h : k ≠ k') : alGet (alDel l k) k' = alGet l k' := by
  induction l with
  | nil => simp [alGet, alDel]
  | cons p rest ih =>
      by_cases hp : p.1 = k
      · have hne : ¬ p.1 = k' := by rw [hp]; exact h
        simp only [alDel, List.filter_cons] at ih ⊢
        rw [if_neg (by simp [hp])]
        rw [ih]
        simp [alGet, hne]
      · simp only [alDel, List.filter_cons] at ih ⊢
        rw [if_pos (by simp [hp])]
        simp only [alGet]
        by_cases hp' : p.1 = k'
        · simp [hp']
        · simp only [if_neg hp']
          exact ih

theorem alGet_none_iff {α : Type} (l : List (String × α)) (k : String) :
    alGet l k = none ↔ k ∉ l.map Prod.fst := by
  induction l with
  | nil => simp [alGet]
  | cons p rest ih =>
      simp only [alGet, List.map_cons, List.mem_cons]
      by_cases h : p.1 = k
      · simp [h]
      · rw [if_neg h, ih]
        constructor
        · intro hk hor
          rcases hor with h1 | h1
          · exact h h1.symm
          · exact hk h1
        · intro hor hk
          exact hor (Or.inr hk)

theorem alGet_isSome_iff {α : Type} (l : List (String × α)) (k : String) :
    (alGet l k).isSome = true ↔ k ∈ l.map Prod.fst := by
  rw [Option.isSome_iff_ne_none]
  constructor
  · intro h
    by_contra hk
    exact h ((alGet_none_iff l k).mpr hk)
  · intro h hnone
    exact (alGet_none_iff l k).mp hnone h

theorem alGet_append_right {α : Type} (l : List (String × α)) (k : String) (v : α)
    (h : alGet l k = none) : alGet (l ++ [(k, v)]) k = some v := by
  induction l with
  | nil => simp [alGet]
  | cons p rest ih =>
      simp only [alGet] at h ⊢
      by_cases hp : p.1 = k
      · simp [hp] at h
      · simp only [List.cons_append, alGet, if_neg hp]
        exact ih (by simpa [hp] using h)

theorem alGet_append_ne {α : Type} (l : List (String × α)) (k k' : String) (v : α)
    (h : k ≠ k') : alGet (l ++ [(k, v)]) k' = alGet l k' := by
  induction l with
  | nil => simp [alGet, h]
  | cons p rest ih =>
      by_cases hp : p.1 = k'
      · simp [alGet, hp]
      · simpa [alGet, hp] using ih

/-! ## Field-row growth -/

theorem growFields_eq (l : List ℚ) (idx : Nat) :
    growFields l idx = l ++ List.replicate (idx + 1 - l.length) 0 := rfl

theorem growFields_length (l : List ℚ) (idx : Nat) :
    (growFields l idx).length = max l.length (idx + 1) := by
  rw [growFields_eq]
  simp
  omega

theorem growFields_lt (l : List ℚ) (idx : Nat) :
    idx < (growFields l idx).length := by
  rw [growFields_length]
  omega

/-! ## Binary-search correctness -/

theorem sorted_getD_lt {arr : List String} (hs : arr.Pairwise (fun a b => a < b))
    {k k' : Nat} (h : k < k') (hk' : k' < arr.length) :
    arr.getD k "" < arr.getD k' "" := by
  have hk : k < arr.length := lt_trans h hk'
  rw [List.getD_eq_getElem arr "" hk, List.getD_eq_getElem arr "" hk']
  exact List.pairwise_iff_getElem.mp hs k k' hk hk' h

theorem bsearchGo_spec (arr : List String) (v : String)
    (hs : arr.Pairwise (fun a b => a < b)) (fuel : Nat) :
    ∀ i j, j - i ≤ fuel → i ≤ j → j ≤ arr.length →
      (∀ k, k < i → arr.getD k "" ≤ v) →
      (∀ k, j ≤ k → k < arr.length → v < arr.getD k "") →
      i ≤ bsearchGo arr v fuel i j ∧ bsearchGo arr v fuel i j ≤ j ∧
        (∀ k, k < bsearchGo arr v fuel i j → arr.getD k "" ≤ v) ∧
        (∀ k, bsearchGo arr v fuel i j ≤ k → k < arr.length → v < arr.getD k "") := by
  induction fuel with
  | zero =>
      intro i j hfuel hij hj hlo hhi
      have hieq : i = j := by omega
      rw [bsearchGo]
      exact ⟨le_refl i, by omega, hlo, fun k hk hk2 => hhi k (by omega) hk2⟩
  | succ fuel ih =>
      intro i j hfuel hij hj hlo hhi
      rw [bsearchGo]
      by_cases h : i < j
      · rw [if_pos h]
        have hmj : i + (j - i) / 2 < j := by omega
        have hmlen : i + (j - i) / 2 < arr.length := by omega
        by_cases hv : arr.getD (i + (j - i) / 2) "" ≤ v
        · rw [if_pos hv]
          have := ih (i + (j - i) / 2 + 1) j (by omega) (by omega) hj
            (fun k hk => by
              rcases Nat.lt_or_ge k (i + (j - i) / 2) with h' | h'
              · exact le_of_lt (lt_of_lt_of_le (sorted_getD_lt hs h' hmlen) hv)
              · have : k = i + (j - i) / 2 := by omega
                rw [this]; exact hv)
            hhi
          exact ⟨by omega, by omega, this.2.2.1, this.2.2.2⟩
        · rw [if_neg hv]
          have hvm : v < arr.getD (i + (j - i) / 2) "" := not_le.mp hv
          have := ih i (i + (j - i) / 2) (by omega) (by omega) (by omega) hlo
            (fun k hk hk' => by
              rcases Nat.eq_or_lt_of_le hk with he | hlt
              · rw [← he]; exact hvm
              · exact lt_trans hvm (sorted_getD_lt hs hlt hk'))
          exact ⟨this.1, by omega, this.2.2.1, this.2.2.2⟩
      · rw [if_neg h]
        exact ⟨le_refl i, by omega, hlo, fun k hk => hhi k (by omega)⟩

theorem bsearchLoop_spec (arr : List String) (v : String)
    (hs : arr.Pairwise (fun a b => a < b)) (i j : Nat)
    (hij : i ≤ j) (hj : j ≤ arr.length)
    (hlo : ∀ k, k < i → arr.getD k "" ≤ v)
    (hhi : ∀ k, j ≤ k → k < arr.length → v < arr.getD k "") :
    i ≤ bsearchLoop arr v i j ∧ bsearchLoop arr v i j ≤ j ∧
      (∀ k, k < bsearchLoop arr v i j → arr.getD k "" ≤ v) ∧
      (∀ k, bsearchLoop arr v i j ≤ k → k < arr.length → v < arr.getD k "") :=
  bsearchGo_spec arr v hs (j - i) i j (le_refl _) hij hj hlo hhi

theorem bsearch_found_iff {arr : List String} (hs : arr.Pairwise (fun a b => a < b))
    (v : String) : (bsearch arr v).2 = true ↔ v ∈ arr := by
  obtain ⟨h0, hlen, hlo, hhi⟩ := bsearchLoop_spec arr v hs 0 arr.length
    (Nat.zero_le _) (le_refl _) (by omega) (by omega)
  simp only [bsearch]
  constructor
  · intro hf
    split at hf
    · rename_i hc
      have h1 : arr.getD (bsearchLoop arr v 0 arr.length - 1) "" ≤ v :=
        hlo _ (by omega)
      have h2 : arr.getD (bsearchLoop arr v 0 arr.length - 1) "" = v :=
        le_antisymm h1 hc.2
      have hlt : bsearchLoop arr v 0 arr.length - 1 < arr.length := by omega
      rw [List.getD_eq_getElem arr "" hlt] at h2
      exact h2 ▸ List.getElem_mem hlt
    · simp at hf
  · intro hv
    obtain ⟨k, hk, hkv⟩ := List.mem_iff_getElem.mp hv
    have hklt : k < bsearchLoop arr v 0 arr.length := by
      by_contra hge
      have := hhi k (by omega) hk
      rw [List.getD_eq_getElem arr "" hk, hkv] at this
      exact lt_irrefl v this
    have hcond : 0 < bsearchLoop arr v 0 arr.length ∧
        v ≤ arr.getD (bsearchLoop arr v 0 arr.length - 1) "" := by
      refine ⟨by omega, ?_⟩
      rcases Nat.eq_or_lt_of_le (by omega : k ≤ bsearchLoop arr v 0 arr.length - 1)
        with he | hlt
      · rw [← he, List.getD_eq_getElem arr "" hk, hkv]
      · have hl : bsearchLoop arr v 0 arr.length - 1 < arr.length := by omega
        have := sorted_getD_lt hs hlt hl
        rw [List.getD_eq_getElem arr "" hk, hkv] at this
        exact le_of_lt this
    rw [if_pos hcond]

theorem bsearch_notfound {arr : List String} (hs : arr.Pairwise (fun a b => a < b))
    (v : String) (h : (bsearch arr v).2 = false) :
    (bsearch arr v).1 ≤ arr.length ∧
      (∀ k, k < (bsearch arr v).1 → k < arr.length → arr.getD k "" < v) ∧
      (∀ k, (bsearch arr v).1 ≤ k → k < arr.length → v < arr.getD k "") := by
  obtain ⟨h0, hlen, hlo, hhi⟩ := bsearchLoop_spec arr v hs 0 arr.length
    (Nat.zero_le _) (le_refl _) (by omega) (by omega)
  simp only [bsearch] at h ⊢
  by_cases hc : 0 < bsearchLoop arr v 0 arr.length ∧
      v ≤ arr.getD (bsearchLoop arr v 0 arr.length - 1) ""
  · rw [if_pos hc] at h
    simp at h
  · rw [if_neg hc] at h ⊢
    dsimp only at h ⊢
    rw [not_and_or] at hc
    refine ⟨hlen, ?_, hhi⟩
    intro k hk hklen
    rcases hc with hc | hc
    · omega
    · have hvk : arr.getD (bsearchLoop arr v 0 arr.length - 1) "" < v := not_le.mp hc
      rcases Nat.eq_or_lt_of_le (by omega : k ≤ bsearchLoop arr v 0 arr.length - 1)
        with he | hlt
      · rw [he]; exact hvk
      · have hl : bsearchLoop arr v 0 arr.length - 1 < arr.length := by omega
        exact lt_trans (sorted_getD_lt hs hlt hl) hvk

theorem pairwise_lt_insertIdx (arr : List String) (v : String) (r : Nat)
    (hs : arr.Pairwise (fun a b => a < b)) (hr : r ≤ arr.length)
    (hlo : ∀ k, k < r → k < arr.length → arr.getD k "" < v)
    (hhi : ∀ k, r ≤ k → k < arr.length → v < arr.getD k "") :
    (arr.insertIdx r v).Pairwise (fun a b => a < b) := by
  induction arr generalizing r with
  | nil =>
      have hr0 : r = 0 := by simpa using hr
      subst hr0
      simp
  | cons a tl ih =>
      rw [List.pairwise_cons] at hs
      match r with
      | 0 =>
          rw [List.insertIdx_zero]
          refine List.pairwise_cons.mpr ⟨?_, List.pairwise_cons.mpr hs⟩
          intro z hz
          have hva : v < a := by simpa using hhi 0 (Nat.zero_le _) (by simp)
          rcases List.mem_cons.mp hz with h1 | h1
          · exact h1 ▸ hva
          · exact lt_trans hva (hs.1 z h1)
      | n + 1 =>
          rw [List.insertIdx_succ_cons]
          have hn : n ≤ tl.length := by simpa using hr
          refine List.pairwise_cons.mpr ⟨?_, ?_⟩
          · intro z hz
            rcases (List.mem_insertIdx hn).mp hz with h1 | h1
            · have : a < v := by simpa using hlo 0 (by omega) (by simp)
              exact h1 ▸ this
            · exact hs.1 z h1
          · refine ih n hs.2 hn ?_ ?_
            · intro k hk hklen
              simpa using hlo (k + 1) (by omega) (by simpa using hklen)
            · intro k hk hklen
              simpa using hhi (k + 1) (by omega) (by simpa using hklen)

theorem addToFieldArr_sorted {arr : List String} (hs : arr.Pairwise (fun a b => a < b))
    (f : String) : (addToFieldArr arr f).Pairwise (fun a b => a < b) := by
  simp only [addToFieldArr]
  by_cases hf : (bsearch arr f).2 = true
  · rw [if_pos hf]; exact hs
  · rw [if_neg hf]
    obtain ⟨hlen, hlo, hhi⟩ := bsearch_notfound hs f (by simpa using hf)
    exact pairwise_lt_insertIdx arr f _ hs hlen hlo hhi

theorem addToFieldArr_mem {arr : List String} (hs : arr.Pairwise (fun a b => a < b))
    (f : String) : ∀ s, s ∈ addToFieldArr arr f ↔ s = f ∨ s ∈ arr := by
  intro s
  simp only [addToFieldArr]
  by_cases hf : (bsearch arr f).2 = true
  · rw [if_pos hf]
    have hmem := (bsearch_found_iff hs f).mp hf
    constructor
    · exact Or.inr
    · rintro (rfl | h)
      · exact hmem
      · exact h
  · rw [if_neg hf]
    obtain ⟨hlen, _, _⟩ := bsearch_notfound hs f (by simpa using hf)
    exact List.mem_insertIdx hlen

/-! ## From-scratch recomputation of the aggregates -/

/-- The naïve weight of one item, recomputed from scratch: point count
times 16 when spatial, string-form length otherwise, plus 8 per field-row
slot, plus the id length. -/
def objWeightRaw (fv : List (String × List ℚ)) (it : itemT) : Int :=
  (if objIsSpatial it.obj then (it.obj.numPoints : Int) * 16
   else (it.obj.string.length : Int))
  + (((alGet fv it.id).getD []).length : Int) * 8 + (it.id.length : Int)

theorem objWeight_eq_raw (c : Collection) (it : itemT) :
    objWeight c it = objWeightRaw c.fieldValues it := rfl

/-- Sum an integer measure over the items. -/
def sumBy (f : itemT → Int) (l : List itemT) : Int := (l.map f).sum

/-- The spatial items. -/
def spatialFilter (l : List itemT) : List itemT :=
  l.filter (fun it => objIsSpatial it.obj)

/-- The non-spatial items. -/
def nonSpatialFilter (l : List itemT) : List itemT :=
  l.filter (fun it => !objIsSpatial it.obj)

/-- Total point count, recomputed from scratch. -/
def pointsSum (l : List itemT) : Int := sumBy (fun it => (it.obj.numPoints : Int)) l

/-- Total weight, recomputed from scratch. -/
def naiveWeight (fv : List (String × List ℚ)) (l : List itemT) : Int :=
  sumBy (objWeightRaw fv) l

/-- The R-tree entries demanded by the items: one `(rect, item)` entry per
spatial non-empty item. -/
def spatialEntries (l : List itemT) : List REntry :=
  (l.filter (fun it => objIsSpatial it.obj && !it.obj.empty)).map
    (fun it => ⟨it.obj.rect, it⟩)

theorem sumBy_perm (f : itemT → Int) {l₁ l₂ : List itemT} (h : l₁.Perm l₂) :
    sumBy f l₁ = sumBy f l₂ := (h.map f).sum_eq

theorem sumBy_cons (f : itemT → Int) (x : itemT) (l : List itemT) :
    sumBy f (x :: l) = f x + sumBy f l := by simp [sumBy]

theorem sumBy_congr {f g : itemT → Int} {l : List itemT}
    (h : ∀ it ∈ l, f it = g it) : sumBy f l = sumBy g l := by
  induction l with
  | nil => rfl
  | cons x xs ih =>
      rw [sumBy_cons, sumBy_cons, h x (List.mem_cons_self x xs),
        ih (fun it hit => h it (List.mem_cons_of_mem x hit))]

theorem spatialEntries_perm {l₁ l₂ : List itemT} (h : l₁.Perm l₂) :
    (spatialEntries l₁).Perm (spatialEntries l₂) := (h.filter _).map _

theorem spatialEntries_cons (x : itemT) (l : List itemT) :
    spatialEntries (x :: l) =
      if objIsSpatial x.obj && !x.obj.empty then
        ⟨x.obj.rect, x⟩ :: spatialEntries l
      else spatialEntries l := by
  simp only [spatialEntries, List.filter_cons]
  split <;> simp

theorem nonSpatialFilter_cons (x : itemT) (l : List itemT) :
    nonSpatialFilter (x :: l) =
      if objIsSpatial x.obj then nonSpatialFilter l else x :: nonSpatialFilter l := by
  simp only [nonSpatialFilter, List.filter_cons]
  rcases hb : objIsSpatial x.obj <;> simp [hb]

theorem spatialFilter_cons (x : itemT) (l : List itemT) :
    spatialFilter (x :: l) =
      if objIsSpatial x.obj then x :: spatialFilter l else spatialFilter l := by
  simp only [spatialFilter, List.filter_cons]

theorem objWeightRaw_alSet_ne (fv : List (String × List ℚ)) (id : String)
    (row : List ℚ) {it : itemT} (h : it.id ≠ id) :
    objWeightRaw (alSet fv id row) it = objWeightRaw fv it := by
  simp [objWeightRaw, alGet_alSet_ne fv id it.id row (fun he => h he.symm)]

theorem objWeightRaw_alDel_ne (fv : List (String × List ℚ)) (id : String)
    {it : itemT} (h : it.id ≠ id) :
    objWeightRaw (alDel fv id) it = objWeightRaw fv it := by
  simp [objWeightRaw, alGet_alDel_ne fv id it.id (fun he => h he.symm)]

theorem naiveWeight_alSet_notmem (fv : List (String × List ℚ)) (id : String)
    (row : List ℚ) {l : List itemT} (h : ∀ it ∈ l, it.id ≠ id) :
    naiveWeight (alSet fv id row) l = naiveWeight fv l :=
  sumBy_congr (fun it hit => objWeightRaw_alSet_ne fv id row (h it hit))

theorem naiveWeight_alDel_notmem (fv : List (String × List ℚ)) (id : String)
    {l : List itemT} (h : ∀ it ∈ l, it.id ≠ id) :
    naiveWeight (alDel fv id) l = naiveWeight fv l :=
  sumBy_congr (fun it hit => objWeightRaw_alDel_ne fv id (h it hit))

/-- A sorted key index decomposes at any member: the member plus a rest
whose ids all differ. -/
theorem perm_erase_of_mem {l : List itemT}
    (hs : l.Pairwise (fun a b => byID a b = true)) {x : itemT} (hx : x ∈ l) :
    l.Perm (x :: l.erase x) ∧ ∀ it ∈ l.erase x, it.id ≠ x.id := by
  refine ⟨List.perm_cons_erase hx, ?_⟩
  intro it hit hid
  have hnd : l.Nodup := (ids_nodup hs).of_map itemT.id
  have hitl : it ∈ l := List.mem_of_mem_erase hit
  have : it = x := mem_unique_id hs hitl hx hid
  rw [this] at hit
  exact (List.Nodup.not_mem_erase hnd) hit

theorem naiveWeight_alSet_mem (fv : List (String × List ℚ)) (row : List ℚ)
    {l : List itemT} (hs : l.Pairwise (fun a b => byID a b = true))
    {x : itemT} (hx : x ∈ l) :
    naiveWeight (alSet fv x.id row) l =
      naiveWeight fv l - (((alGet fv x.id).getD []).length : Int) * 8 +
        (row.length : Int) * 8 := by
  obtain ⟨hperm, hne⟩ := perm_erase_of_mem hs hx
  have h1 : naiveWeight (alSet fv x.id row) l =
      objWeightRaw (alSet fv x.id row) x + naiveWeight (alSet fv x.id row) (l.erase x) := by
    rw [naiveWeight, sumBy_perm _ hperm, sumBy_cons]
    rfl
  have h2 : naiveWeight fv l = objWeightRaw fv x + naiveWeight fv (l.erase x) := by
    rw [naiveWeight, sumBy_perm _ hperm, sumBy_cons]
    rfl
  rw [h1, naiveWeight_alSet_notmem fv x.id row hne, h2]
  simp only [objWeightRaw, alGet_alSet_self, Option.getD_some]
  ring

theorem nodup_map_inj {α β : Type} {f : α → β} {l : List α}
    (h : (l.map f).Nodup) {p q : α} (hp : p ∈ l) (hq : q ∈ l) (he : f p = f q) :
    p = q := by
  induction l with
  | nil => simp at hp
  | cons a tl ih =>
      rw [List.map_cons, List.nodup_cons] at h
      rcases List.mem_cons.mp hp with hp1 | hp1 <;> rcases List.mem_cons.mp hq with hq1 | hq1
      · rw [hp1, hq1]
      · exact absurd (List.mem_map_of_mem f hq1) (by rw [← he, hp1] at *; exact h.1)
      · exact absurd (List.mem_map_of_mem f hp1) (by rw [he, hq1] at *; exact h.1)
      · exact ih h.2 hp1 hq1

/-! ## The data-structure invariant -/

/-- Everything simultaneously true of a reachable collection state: the two
ordered trees are sorted, the value tree holds exactly the non-spatial
items, the R-tree holds exactly the spatial non-empty items, field rows
belong to live ids, the four counters equal their from-scratch
recomputations, and the field schema is well formed. -/
structure Inv (c : Collection) : Prop where
  items_sorted : c.items.Pairwise (fun a b => byID a b = true)
  values_sorted : c.values.Pairwise (fun a b => byValue a b = true)
  values_perm : c.values.Perm (nonSpatialFilter c.items)
  index_perm : c.index.Perm (spatialEntries c.items)
  fv_keys : ∀ id, (alGet c.fieldValues id).isSome = true → id ∈ c.items.map itemT.id
  objects_eq : c.objects = ((spatialFilter c.items).length : Int)
  nobjects_eq : c.nobjects = ((nonSpatialFilter c.items).length : Int)
  points_eq : c.points = pointsSum c.items
  weight_eq : c.weight = naiveWeight c.fieldValues c.items
  fm_snd : c.fieldMap.map Prod.snd = List.range c.fieldMap.length
  fm_nodup : (c.fieldMap.map Prod.fst).Nodup
  fa_sorted : c.fieldArr.Pairwise (fun a b => a < b)
  fa_mem : ∀ s, s ∈ c.fieldArr ↔ s ∈ c.fieldMap.map Prod.fst

theorem inv_New : Inv New := by
  refine ⟨?_, ?_, ?_, ?_, ?_, ?_, ?_, ?_, ?_, ?_, ?_, ?_, ?_⟩ <;>
    simp [New, nonSpatialFilter, spatialFilter, spatialEntries, pointsSum, naiveWeight,
      sumBy, alGet]

/-! ## `setField` characterization -/

/-- The column `setField` writes to: the existing column of the name, or
the next free index. -/
def fieldCol (c : Collection) (f : String) : Nat :=
  match alGet c.fieldMap f with
  | some idx => idx
  | none => c.fieldMap.length

theorem setField_frame (c : Collection) (item : itemT) (f : String) (v : ℚ) :
    (setField c item f v).1.items = c.items ∧
    (setField c item f v).1.values = c.values ∧
    (setField c item f v).1.index = c.index ∧
    (setField c item f v).1.objects = c.objects ∧
    (setField c item f v).1.nobjects = c.nobjects ∧
    (setField c item f v).1.points = c.points := by
  rcases h : alGet c.fieldMap f with _ | idx <;> simp [setField, setFieldValues, h]

theorem setField_fieldValues (c : Collection) (item : itemT) (f : String) (v : ℚ) :
    (setField c item f v).1.fieldValues =
      alSet c.fieldValues item.id
        ((growFields (getFieldValues c item.id) (fieldCol c f)).set (fieldCol c f) v) := by
  rcases h : alGet c.fieldMap f with _ | idx <;>
    simp [setField, setFieldValues, getFieldValues, fieldCol, h]

theorem setField_weight (c : Collection) (item : itemT) (f : String) (v : ℚ) :
    (setField c item f v).1.weight =
      c.weight - ((getFieldValues c item.id).length : Int) * 8 +
        ((growFields (getFieldValues c item.id) (fieldCol c f)).length : Int) * 8 := by
  rcases h : alGet c.fieldMap f with _ | idx <;>
    simp [setField, setFieldValues, getFieldValues, fieldCol, h]

theorem setField_fieldMap (c : Collection) (item : itemT) (f : String) (v : ℚ) :
    (setField c item f v).1.fieldMap =
      (match alGet c.fieldMap f with
       | some _ => c.fieldMap
       | none => c.fieldMap ++ [(f, c.fieldMap.length)]) := by
  rcases h : alGet c.fieldMap f with _ | idx <;> simp [setField, setFieldValues, h]

theorem setField_fieldArr (c : Collection) (item : itemT) (f : String) (v : ℚ) :
    (setField c item f v).1.fieldArr =
      (match alGet c.fieldMap f with
       | some _ => c.fieldArr
       | none => addToFieldArr c.fieldArr f) := by
  rcases h : alGet c.fieldMap f with _ | idx <;> simp [setField, setFieldValues, h]

theorem setField_updated (c : Collection) (item : itemT) (f : String) (v : ℚ) :
    (setField c item f v).2 =
      decide ((growFields (getFieldValues c item.id) (fieldCol c f)).getD (fieldCol c f) 0 ≠ v) := by
  rcases h : alGet c.fieldMap f with _ | idx <;>
    simp [setField, setFieldValues, getFieldValues, fieldCol, h]

theorem inv_setField {c : Collection} (item : itemT) (f : String) (v : ℚ)
    (hinv : Inv c) (hmem : item.id ∈ c.items.map itemT.id) :
    Inv (setField c item f v).1 := by
  obtain ⟨hit, hva, hix, hob, hnb, hpt⟩ := setField_frame c item f v
  obtain ⟨x, hx, hxid⟩ := List.mem_map.mp hmem
  have hrow : getFieldValues c item.id = (alGet c.fieldValues x.id).getD [] := by
    rw [getFieldValues, hxid]
  refine ⟨?_, ?_, ?_, ?_, ?_, ?_, ?_, ?_, ?_, ?_, ?_, ?_, ?_⟩
  · rw [hit]; exact hinv.items_sorted
  · rw [hva]; exact hinv.values_sorted
  · rw [hva, hit]; exact hinv.values_perm
  · rw [hix, hit]; exact hinv.index_perm
  · intro id hid
    rw [hit]
    rw [setField_fieldValues] at hid
    by_cases he : id = item.id
    · exact he ▸ hmem
    · rw [alGet_alSet_ne _ _ _ _ (fun hc => he hc.symm)] at hid
      exact hinv.fv_keys id hid
  · rw [hob, hit]; exact hinv.objects_eq
  · rw [hnb, hit]; exact hinv.nobjects_eq
  · rw [hpt, hit]; exact hinv.points_eq
  · rw [setField_weight, setField_fieldValues, hit]
    rw [← hxid] at *
    rw [naiveWeight_alSet_mem c.fieldValues _ hinv.items_sorted hx,
      hinv.weight_eq, List.length_set, hrow]
  · rw [setField_fieldMap]
    rcases h : alGet c.fieldMap f with _ | idx
    · simp only [List.map_append, List.length_append, hinv.fm_snd]
      simp [List.range_succ]
    · exact hinv.fm_snd
  · rw [setField_fieldMap]
    rcases h : alGet c.fieldMap f with _ | idx
    · rw [List.map_append, List.nodup_append]
      refine ⟨hinv.fm_nodup, by simp, ?_⟩
      intro a ha hb
      simp only [List.map_cons, List.map_nil, List.mem_singleton] at hb
      rw [hb] at ha
      exact (alGet_none_iff c.fieldMap f).mp h ha
    · exact hinv.fm_nodup
  · rw [setField_fieldArr]
    rcases h : alGet c.fieldMap f with _ | idx
    · exact addToFieldArr_sorted hinv.fa_sorted f
    · exact hinv.fa_sorted
  · intro s
    rw [setField_fieldArr, setField_fieldMap]
    rcases h : alGet c.fieldMap f with _ | idx
    · rw [addToFieldArr_mem hinv.fa_sorted f s, hinv.fa_mem s]
      simp [or_comm]
    · exact hinv.fa_mem s

theorem eqk_byID_iff (a b : itemT) :
    (byID a b = false ∧ byID b a = false) ↔ a.id = b.id := by
  constructor
  · intro h
    exact byID_keyeq h.1 h.2
  · intro h
    constructor <;> simp [byID, h, lt_irrefl]

/-- Membership in item lists transfers across a permutation of ids. -/
theorem mem_ids_of_perm {l₁ l₂ : List itemT} (h : l₁.Perm l₂) (id : String) :
    id ∈ l₁.map itemT.id ↔ id ∈ l₂.map itemT.id :=
  (h.map itemT.id).mem_iff

/-! ### Projections of the two `setCore` phases -/

theorem setInsertNew_items (c : Collection) (x : itemT) :
    (setInsertNew c x).items = c.items := by
  by_cases h : objIsSpatial x.obj = true <;> by_cases he : x.obj.empty = true <;>
    simp [setInsertNew, indexInsert, h, he]

theorem setInsertNew_fieldValues (c : Collection) (x : itemT) :
    (setInsertNew c x).fieldValues = c.fieldValues := by
  by_cases h : objIsSpatial x.obj = true <;> by_cases he : x.obj.empty = true <;>
    simp [setInsertNew, indexInsert, h, he]

theorem setInsertNew_fieldMap (c : Collection) (x : itemT) :
    (setInsertNew c x).fieldMap = c.fieldMap := by
  by_cases h : objIsSpatial x.obj = true <;> by_cases he : x.obj.empty = true <;>
    simp [setInsertNew, indexInsert, h, he]

theorem setInsertNew_fieldArr (c : Collection) (x : itemT) :
    (setInsertNew c x).fieldArr = c.fieldArr := by
  by_cases h : objIsSpatial x.obj = true <;> by_cases he : x.obj.empty = true <;>
    simp [setInsertNew, indexInsert, h, he]

theorem setInsertNew_values (c : Collection) (x : itemT) :
    (setInsertNew c x).values =
      if objIsSpatial x.obj then c.values else (btreeSet byValue c.values x).1 := by
  by_cases h : objIsSpatial x.obj = true <;> by_cases he : x.obj.empty = true <;>
    simp [setInsertNew, indexInsert, h, he]

theorem setInsertNew_index (c : Collection) (x : itemT) :
    (setInsertNew c x).index =
      if objIsSpatial x.obj && !x.obj.empty then c.index ++ [⟨x.obj.rect, x⟩]
      else c.index := by
  by_cases h : objIsSpatial x.obj = true
  · by_cases he : x.obj.empty = true <;> simp [setInsertNew, indexInsert, h, he]
  · simp [setInsertNew, indexInsert, h]

theorem setInsertNew_objects (c : Collection) (x : itemT) :
    (setInsertNew c x).objects =
      c.objects + (if objIsSpatial x.obj then 1 else 0) := by
  by_cases h : objIsSpatial x.obj = true <;> by_cases he : x.obj.empty = true <;>
    simp [setInsertNew, indexInsert, h, he]

theorem setInsertNew_nobjects (c : Collection) (x : itemT) :
    (setInsertNew c x).nobjects =
      c.nobjects + (if objIsSpatial x.obj then 0 else 1) := by
  by_cases h : objIsSpatial x.obj = true <;> by_cases he : x.obj.empty = true <;>
    simp [setInsertNew, indexInsert, h, he]

theorem setInsertNew_points (c : Collection) (x : itemT) :
    (setInsertNew c x).points = c.points + (x.obj.numPoints : Int) := by
  by_cases h : objIsSpatial x.obj = true <;> by_cases he : x.obj.empty = true <;>
    simp [setInsertNew, indexInsert, h, he]

theorem setInsertNew_weight (c : Collection) (x : itemT) :
    (setInsertNew c x).weight = c.weight + objWeightRaw c.fieldValues x := by
  by_cases h : objIsSpatial x.obj = true <;> by_cases he : x.obj.empty = true <;>
    simp [setInsertNew, indexInsert, h, he, objWeight_eq_raw, objWeightRaw, getFieldValues]

theorem setRemoveOld_items (c : Collection) (x : itemT) :
    (setRemoveOld c x).items = c.items := by
  by_cases h : objIsSpatial x.obj = true <;> by_cases he : x.obj.empty = true <;>
    simp [setRemoveOld, indexDelete, h, he]

theorem setRemoveOld_fieldValues (c : Collection) (x : itemT) :
    (setRemoveOld c x).fieldValues = c.fieldValues := by
  by_cases h : objIsSpatial x.obj = true <;> by_cases he : x.obj.empty = true <;>
    simp [setRemoveOld, indexDelete, h, he]

theorem setRemoveOld_fieldMap (c : Collection) (x : itemT) :
    (setRemoveOld c x).fieldMap = c.fieldMap := by
  by_cases h : objIsSpatial x.obj = true <;> by_cases he : x.obj.empty = true <;>
    simp [setRemoveOld, indexDelete, h, he]

theorem setRemoveOld_fieldArr (c : Collection) (x : itemT) :
    (setRemoveOld c x).fieldArr = c.fieldArr := by
  by_cases h : objIsSpatial x.obj = true <;> by_cases he : x.obj.empty = true <;>
    simp [setRemoveOld, indexDelete, h, he]

theorem setRemoveOld_values (c : Collection) (x : itemT) :
    (setRemoveOld c x).values =
      if objIsSpatial x.obj then c.values else (btreeDelete byValue c.values x).1 := by
  by_cases h : objIsSpatial x.obj = true <;> by_cases he : x.obj.empty = true <;>
    simp [setRemoveOld, indexDelete, h, he]

theorem setRemoveOld_index (c : Collection) (x : itemT) :
    (setRemoveOld c x).index =
      if objIsSpatial x.obj && !x.obj.empty then c.index.erase ⟨x.obj.rect, x⟩
      else c.index := by
  by_cases h : objIsSpatial x.obj = true
  · by_cases he : x.obj.empty = true <;> simp [setRemoveOld, indexDelete, h, he]
  · simp [setRemoveOld, indexDelete, h]

theorem setRemoveOld_objects (c : Collection) (x : itemT) :
    (setRemoveOld c x).objects =
      c.objects - (if objIsSpatial x.obj then 1 else 0) := by
  by_cases h : objIsSpatial x.obj = true <;> by_cases he : x.obj.empty = true <;>
    simp [setRemoveOld, indexDelete, h, he]

theorem setRemoveOld_nobjects (c : Collection) (x : itemT) :
    (setRemoveOld c x).nobjects =
      c.nobjects - (if objIsSpatial x.obj then 0 else 1) := by
  by_cases h : objIsSpatial x.obj = true <;> by_cases he : x.obj.empty = true <;>
    simp [setRemoveOld, indexDelete, h, he]

theorem setRemoveOld_points (c : Collection) (x : itemT) :
    (setRemoveOld c x).points = c.points - (x.obj.numPoints : Int) := by
  by_cases h : objIsSpatial x.obj = true <;> by_cases he : x.obj.empty = true <;>
    simp [setRemoveOld, indexDelete, h, he]

theorem setRemoveOld_weight (c : Collection) (x : itemT) :
    (setRemoveOld c x).weight = c.weight - objWeightRaw c.fieldValues x := by
  by_cases h : objIsSpatial x.obj = true <;> by_cases he : x.obj.empty = true <;>
    simp [setRemoveOld, indexDelete, h, he, objWeight_eq_raw, objWeightRaw, getFieldValues]

theorem nonSpatialFilter_perm {l₁ l₂ : List itemT} (h : l₁.Perm l₂) :
    (nonSpatialFilter l₁).Perm (nonSpatialFilter l₂) := h.filter _

theorem spatialFilter_perm {l₁ l₂ : List itemT} (h : l₁.Perm l₂) :
    (spatialFilter l₁).Perm (spatialFilter l₂) := h.filter _

/-- The insert half of `setCore`, run on a state whose side structures and
counters reflect a base item list `B` while the key index already holds
`newItem :: B` up to permutation, `newItem`'s id being fresh in `B`. -/
theorem inv_insertPhase {c : Collection} {B : List itemT} {newItem : itemT}
    (h_is : c.items.Pairwise (fun a b => byID a b = true))
    (h_ip : c.items.Perm (newItem :: B))
    (h_fresh : ∀ it ∈ B, it.id ≠ newItem.id)
    (h_vs : c.values.Pairwise (fun a b => byValue a b = true))
    (h_vp : c.values.Perm (nonSpatialFilter B))
    (h_xp : c.index.Perm (spatialEntries B))
    (h_fv : ∀ id, (alGet c.fieldValues id).isSome = true → id ∈ c.items.map itemT.id)
    (h_ob : c.objects = ((spatialFilter B).length : Int))
    (h_nb : c.nobjects = ((nonSpatialFilter B).length : Int))
    (h_pt : c.points = pointsSum B)
    (h_wt : c.weight = naiveWeight c.fieldValues B)
    (h_ms : c.fieldMap.map Prod.snd = List.range c.fieldMap.length)
    (h_mn : (c.fieldMap.map Prod.fst).Nodup)
    (h_as : c.fieldArr.Pairwise (fun a b => a < b))
    (h_am : ∀ s, s ∈ c.fieldArr ↔ s ∈ c.fieldMap.map Prod.fst) :
    Inv (setInsertNew c newItem) := by
  refine ⟨?_, ?_, ?_, ?_, ?_, ?_, ?_, ?_, ?_, ?_, ?_, ?_, ?_⟩
  · rw [setInsertNew_items]; exact h_is
  · rw [setInsertNew_values]
    split
    · exact h_vs
    · exact btreeSet_sorted byValue_laws newItem h_vs
  · rw [setInsertNew_values, setInsertNew_items]
    by_cases hsp : objIsSpatial newItem.obj = true
    · rw [if_pos hsp]
      have h2 := nonSpatialFilter_perm h_ip
      rw [nonSpatialFilter_cons, if_pos hsp] at h2
      exact h_vp.trans h2.symm
    · rw [if_neg hsp]
      cases hbs : (btreeSet byValue c.values newItem).2 with
      | some y =>
          exfalso
          obtain ⟨hy, heq, _⟩ := btreeSet_some h_vs hbs
          have hyB : y ∈ B := List.mem_of_mem_filter (h_vp.mem_iff.mp hy)
          exact h_fresh y hyB (byValue_keyeq heq.1 heq.2).2
      | none =>
          have hp := btreeSet_none_perm hbs
          have h2 := nonSpatialFilter_perm h_ip
          rw [nonSpatialFilter_cons, if_neg hsp] at h2
          exact hp.trans ((h_vp.cons newItem).trans h2.symm)
  · rw [setInsertNew_index, setInsertNew_items]
    have h2 := spatialEntries_perm h_ip
    rw [spatialEntries_cons] at h2
    by_cases hcond : (objIsSpatial newItem.obj && !newItem.obj.empty) = true
    · rw [if_pos hcond]
      rw [if_pos hcond] at h2
      exact (List.perm_append_singleton _ _).trans ((h_xp.cons _).trans h2.symm)
    · rw [if_neg hcond]
      rw [if_neg hcond] at h2
      exact h_xp.trans h2.symm
  · intro id hid
    rw [setInsertNew_fieldValues] at hid
    rw [setInsertNew_items]
    exact h_fv id hid
  · rw [setInsertNew_objects, setInsertNew_items, h_ob]
    have h2 := spatialFilter_perm h_ip
    rw [spatialFilter_cons] at h2
    by_cases hsp : objIsSpatial newItem.obj = true
    · rw [if_pos hsp]
      rw [if_pos hsp] at h2
      rw [h2.length_eq, List.length_cons]
      push_cast
      ring
    · rw [if_neg hsp]
      rw [if_neg hsp] at h2
      rw [h2.length_eq]
      push_cast
      ring
  · rw [setInsertNew_nobjects, setInsertNew_items, h_nb]
    have h2 := nonSpatialFilter_perm h_ip
    rw [nonSpatialFilter_cons] at h2
    by_cases hsp : objIsSpatial newItem.obj = true
    · rw [if_pos hsp]
      rw [if_pos hsp] at h2
      rw [h2.length_eq]
      push_cast
      ring
    · rw [if_neg hsp]
      rw [if_neg hsp] at h2
      rw [h2.length_eq, List.length_cons]
      push_cast
      ring
  · rw [setInsertNew_points, setInsertNew_items, h_pt]
    have h3 : pointsSum c.items = (newItem.obj.numPoints : Int) + pointsSum B := by
      unfold pointsSum
      rw [sumBy_perm _ h_ip, sumBy_cons]
    rw [h3]
    ring
  · rw [setInsertNew_weight, setInsertNew_items, setInsertNew_fieldValues, h_wt]
    have h3 : naiveWeight c.fieldValues c.items =
        objWeightRaw c.fieldValues newItem + naiveWeight c.fieldValues B := by
      unfold naiveWeight
      rw [sumBy_perm _ h_ip, sumBy_cons]
    rw [h3]
    ring
  · rw [setInsertNew_fieldMap]; exact h_ms
  · rw [setInsertNew_fieldMap]; exact h_mn
  · rw [setInsertNew_fieldArr]; exact h_as
  · intro s
    rw [setInsertNew_fieldArr, setInsertNew_fieldMap]
    exact h_am s

theorem btreeDelete_sorted {less : itemT → itemT → Bool} {l : List itemT} (x : itemT)
    (hs : l.Pairwise (fun a b => less a b = true)) :
    (btreeDelete less l x).1.Pairwise (fun a b => less a b = true) := by
  cases hr : (btreeDelete less l x).2 with
  | none => rw [btreeDelete_none hr]; exact hs
  | some y =>
      rw [(btreeDelete_some hr).2.2]
      exact hs.sublist (l.erase_sublist y)

/-- `setCore` preserves the invariant; the new item ends up in the key
index and the field rows are untouched. -/
theorem setCore_spec {c : Collection} (newItem : itemT) (hinv : Inv c) :
    Inv (setCore c newItem).1 ∧ newItem ∈ (setCore c newItem).1.items ∧
      (setCore c newItem).1.fieldValues = c.fieldValues ∧
      (setCore c newItem).2.2 = getFieldValues (setCore c newItem).1 newItem.id := by
  cases hr : (btreeSet byID c.items newItem).2 with
  | none =>
      have hp : (btreeSet byID c.items newItem).1.Perm (newItem :: c.items) :=
        btreeSet_none_perm hr
      have hsorted := btreeSet_sorted byID_laws newItem hinv.items_sorted
      have hfresh : ∀ it ∈ c.items, it.id ≠ newItem.id := fun it hit hid =>
        btreeSet_none_nomatch byID_laws hinv.items_sorted hr it hit
          ((eqk_byID_iff it newItem).mpr hid)
      have hsc : setCore c newItem =
          (setInsertNew { c with items := (btreeSet byID c.items newItem).1 } newItem,
            none, []) := by
        simp [setCore, hr]
      rw [hsc]
      refine ⟨?_, ?_, ?_, ?_⟩
      · exact inv_insertPhase (B := c.items) hsorted hp hfresh
          hinv.values_sorted hinv.values_perm hinv.index_perm
          (fun id hid => (mem_ids_of_perm hp id).mpr
            (by simpa using Or.inr ((List.mem_map).mp (hinv.fv_keys id hid) |>.elim
              (fun x hx => List.mem_map.mpr ⟨x, hx.1, hx.2⟩))))
          hinv.objects_eq hinv.nobjects_eq hinv.points_eq hinv.weight_eq
          hinv.fm_snd hinv.fm_nodup hinv.fa_sorted hinv.fa_mem
      · rw [setInsertNew_items]
        exact (hp.mem_iff).mpr (List.mem_cons_self _ _)
      · rw [setInsertNew_fieldValues]
      · have hnone : alGet c.fieldValues newItem.id = none := by
          cases hg : alGet c.fieldValues newItem.id with
          | none => rfl
          | some row =>
              exfalso
              obtain ⟨x, hx, hxid⟩ :=
                List.mem_map.mp (hinv.fv_keys newItem.id (by simp [hg]))
              exact hfresh x hx hxid
        simp [getFieldValues, setInsertNew_fieldValues, hnone]
  | some oldItem =>
      obtain ⟨hold_mem, heqk, hperm⟩ := btreeSet_some hinv.items_sorted hr
      have hid_eq : oldItem.id = newItem.id := byID_keyeq heqk.1 heqk.2
      have hsorted := btreeSet_sorted byID_laws newItem hinv.items_sorted
      obtain ⟨hpermA, hneA⟩ := perm_erase_of_mem hinv.items_sorted hold_mem
      have hsc : setCore c newItem =
          (setInsertNew
            (setRemoveOld { c with items := (btreeSet byID c.items newItem).1 } oldItem)
            newItem,
           some oldItem.obj,
           getFieldValues
             (setRemoveOld { c with items := (btreeSet byID c.items newItem).1 } oldItem)
             newItem.id) := by
        simp [setCore, hr]
      rw [hsc]
      have hc2_items :
          (setRemoveOld { c with items := (btreeSet byID c.items newItem).1 } oldItem).items
            = (btreeSet byID c.items newItem).1 := setRemoveOld_items _ _
      have hc2_fv :
          (setRemoveOld { c with items := (btreeSet byID c.items newItem).1 } oldItem).fieldValues
            = c.fieldValues := setRemoveOld_fieldValues _ _
      refine ⟨?_, ?_, ?_, ?_⟩
      · refine inv_insertPhase (B := c.items.erase oldItem) ?_ ?_ ?_ ?_ ?_ ?_ ?_ ?_ ?_ ?_ ?_ ?_ ?_ ?_ ?_
        · rw [hc2_items]; exact hsorted
        · rw [hc2_items]; exact hperm
        · intro it hit
          rw [← hid_eq]
          exact hneA it hit
        · rw [setRemoveOld_values]
          split
          · exact hinv.values_sorted
          · exact btreeDelete_sorted oldItem hinv.values_sorted
        · -- values permutation after removal
          rw [setRemoveOld_values]
          have hnsf := nonSpatialFilter_perm hpermA
          rw [nonSpatialFilter_cons] at hnsf
          by_cases hsp : objIsSpatial oldItem.obj = true
          · rw [if_pos hsp]
            rw [if_pos hsp] at hnsf
            exact hinv.values_perm.trans hnsf
          · rw [if_neg hsp]
            rw [if_neg hsp] at hnsf
            cases hbd : (btreeDelete byValue c.values oldItem).2 with
            | none =>
                exfalso
                have hov : oldItem ∈ c.values := by
                  rw [hinv.values_perm.mem_iff, nonSpatialFilter]
                  exact List.mem_filter.mpr ⟨hold_mem, by simp [hsp]⟩
                exact btreeDelete_none_nomatch byValue_laws hinv.values_sorted hbd
                  oldItem hov ⟨byValue_laws.irrefl oldItem, byValue_laws.irrefl oldItem⟩
            | some y =>
                obtain ⟨hy_mem, hy_eqk, hy_rest⟩ := btreeDelete_some hbd
                have hy_items : y ∈ c.items :=
                  List.mem_of_mem_filter (hinv.values_perm.mem_iff.mp hy_mem)
                have hy_old : y = oldItem :=
                  mem_unique_id hinv.items_sorted hy_items hold_mem
                    (byValue_keyeq hy_eqk.1 hy_eqk.2).2
                rw [hy_rest, hy_old]
                refine (hinv.values_perm.erase oldItem).trans ?_
                refine (List.Perm.erase oldItem hnsf).trans ?_
                rw [List.erase_cons_head]
        · -- index permutation after removal
          rw [setRemoveOld_index]
          have hse := spatialEntries_perm hpermA
          rw [spatialEntries_cons] at hse
          by_cases hcond : (objIsSpatial oldItem.obj && !oldItem.obj.empty) = true
          · rw [if_pos hcond]
            rw [if_pos hcond] at hse
            refine (hinv.index_perm.erase ⟨oldItem.obj.rect, oldItem⟩).trans ?_
            refine (List.Perm.erase ⟨oldItem.obj.rect, oldItem⟩ hse).trans ?_
            rw [List.erase_cons_head]
          · rw [if_neg hcond]
            rw [if_neg hcond] at hse
            exact hinv.index_perm.trans hse
        · -- field rows still belong to live ids
          intro id hid
          rw [hc2_fv] at hid
          rw [hc2_items]
          have := hinv.fv_keys id hid
          rw [mem_ids_of_perm hpermA id] at this
          rw [mem_ids_of_perm hperm id]
          simp only [List.map_cons, List.mem_cons] at this ⊢
          rcases this with h1 | h1
          · exact Or.inl (h1.trans hid_eq)
          · exact Or.inr h1
        · -- objects counter
          rw [setRemoveOld_objects, hinv.objects_eq]
          have hsf := spatialFilter_perm hpermA
          rw [spatialFilter_cons] at hsf
          by_cases hsp : objIsSpatial oldItem.obj = true
          · rw [if_pos hsp]
            rw [if_pos hsp] at hsf
            rw [hsf.length_eq, List.length_cons]
            push_cast
            ring
          · rw [if_neg hsp]
            rw [if_neg hsp] at hsf
            rw [hsf.length_eq]
            push_cast
            ring
        · -- nobjects counter
          rw [setRemoveOld_nobjects, hinv.nobjects_eq]
          have hsf := nonSpatialFilter_perm hpermA
          rw [nonSpatialFilter_cons] at hsf
          by_cases hsp : objIsSpatial oldItem.obj = true
          · rw [if_pos hsp]
            rw [if_pos hsp] at hsf
            rw [hsf.length_eq]
            push_cast
            ring
          · rw [if_neg hsp]
            rw [if_neg hsp] at hsf
            rw [hsf.length_eq, List.length_cons]
            push_cast
            ring
        · -- points counter
          rw [setRemoveOld_points, hinv.points_eq]
          have h3 : pointsSum c.items =
              (oldItem.obj.numPoints : Int) + pointsSum (c.items.erase oldItem) := by
            unfold pointsSum
            rw [sumBy_perm _ hpermA, sumBy_cons]
          rw [h3]
          ring
        · -- weight counter
          rw [setRemoveOld_weight, hc2_fv, hinv.weight_eq]
          have h3 : naiveWeight c.fieldValues c.items =
              objWeightRaw c.fieldValues oldItem +
                naiveWeight c.fieldValues (c.items.erase oldItem) := by
            unfold naiveWeight
            rw [sumBy_perm _ hpermA, sumBy_cons]
          rw [h3]
          ring
        · rw [setRemoveOld_fieldMap]; exact hinv.fm_snd
        · rw [setRemoveOld_fieldMap]; exact hinv.fm_nodup
        · rw [setRemoveOld_fieldArr]; exact hinv.fa_sorted
        · intro s
          rw [setRemoveOld_fieldArr, setRemoveOld_fieldMap]
          exact hinv.fa_mem s
      · rw [setInsertNew_items, hc2_items]
        exact (hperm.mem_iff).mpr (List.mem_cons_self _ _)
      · rw [setInsertNew_fieldValues, hc2_fv]
      · rw [getFieldValues, getFieldValues, setInsertNew_fieldValues]

/-- The collection state an operation leaves behind, whether it returns or
panics. -/
def exOut {α : Type} : Except Collection (Collection × α) → Collection
  | .ok p => p.1
  | .error cp => cp

/-- Replacing the field row of a stored item, with the matching weight
adjustment, preserves the invariant (the shape shared by `setField` and the
direct-values branch of `Set`). -/
theorem inv_update_row {c : Collection} (hinv : Inv c) {x : itemT} (hx : x ∈ c.items)
    (row : List ℚ) :
    Inv { c with fieldValues := alSet c.fieldValues x.id row,
                 weight := c.weight - ((getFieldValues c x.id).length : Int) * 8 +
                   (row.length : Int) * 8 } := by
  refine ⟨hinv.items_sorted, hinv.values_sorted, hinv.values_perm, hinv.index_perm,
    ?_, hinv.objects_eq, hinv.nobjects_eq, hinv.points_eq, ?_,
    hinv.fm_snd, hinv.fm_nodup, hinv.fa_sorted, hinv.fa_mem⟩
  · intro id hid
    by_cases he : id = x.id
    · subst he
      exact List.mem_map.mpr ⟨x, hx, rfl⟩
    · simp only at hid
      rw [alGet_alSet_ne _ _ _ _ (fun hc => he hc.symm)] at hid
      exact hinv.fv_keys id hid
  · simp only
    rw [naiveWeight_alSet_mem c.fieldValues row hinv.items_sorted hx,
      hinv.weight_eq, getFieldValues]

theorem inv_setFieldsLoop (item : itemT) (fs : List String) (vs : List ℚ) (n : Nat)
    (c : Collection) (hinv : Inv c) (hmem : item.id ∈ c.items.map itemT.id) :
    Inv (exOut (setFieldsLoop item c fs vs n)) ∧
      (exOut (setFieldsLoop item c fs vs n)).items = c.items := by
  induction fs generalizing c vs n with
  | nil => exact ⟨hinv, rfl⟩
  | cons f fs ih =>
      cases vs with
      | nil => exact ⟨hinv, rfl⟩
      | cons v vs =>
          have hfr := (setField_frame c item f v).1
          have h1 := inv_setField item f v hinv hmem
          have h2 := ih vs (if (setField c item f v).2 then n + 1 else n)
            (setField c item f v).1 h1 (hfr ▸ hmem)
          rw [setFieldsLoop]
          exact ⟨h2.1, h2.2.trans hfr⟩

theorem inv_Set (c : Collection) (id : String) (obj : GeoObject)
    (fields : Option (List String)) (values : List ℚ) (hinv : Inv c) :
    Inv (exOut (Set c id obj fields values)) := by
  obtain ⟨hinv1, hmem1, hfv1, hof⟩ := setCore_spec (c := c) ⟨id, obj⟩ hinv
  have hid_mem : id ∈ (setCore c ⟨id, obj⟩).1.items.map itemT.id :=
    List.mem_map.mpr ⟨⟨id, obj⟩, hmem1, rfl⟩
  cases fields with
  | none =>
      by_cases hv : values.length > 0
      · have hset : exOut (Set c id obj none values) =
            { (setCore c ⟨id, obj⟩).1 with
              fieldValues := alSet (setCore c ⟨id, obj⟩).1.fieldValues id values,
              weight := (setCore c ⟨id, obj⟩).1.weight -
                  (((setCore c ⟨id, obj⟩).2.2).length : Int) * 8 +
                (values.length : Int) * 8 } := by
          simp [Collection.Set, exOut, hv, setFieldValues]
        rw [hset, hof]
        exact inv_update_row hinv1 hmem1 values
      · have hset : exOut (Set c id obj none values) = (setCore c ⟨id, obj⟩).1 := by
          simp [Collection.Set, exOut, hv]
        rw [hset]
        exact hinv1
  | some fieldNames =>
      have hset : exOut (Set c id obj (some fieldNames) values) =
          exOut (setFieldsLoop ⟨id, obj⟩ (setCore c ⟨id, obj⟩).1 fieldNames values 0) := by
        simp only [Collection.Set, exOut]
        cases setFieldsLoop ⟨id, obj⟩ (setCore c ⟨id, obj⟩).1 fieldNames values 0 <;> rfl
      rw [hset]
      exact (inv_setFieldsLoop ⟨id, obj⟩ fieldNames values 0 _ hinv1 hid_mem).1

theorem inv_Delete (c : Collection) (id : String) (hinv : Inv c) :
    Inv (Delete c id).1 := by
  cases hr : (btreeDelete byID c.items ⟨id, .str ""⟩).2 with
  | none =>
      have hd : (Delete c id).1 = c := by
        simp [Delete, hr]
      rw [hd]
      exact hinv
  | some oldItem =>
      obtain ⟨hold_mem, heqk, hrest⟩ := btreeDelete_some hr
      have hid_eq : oldItem.id = id := byID_keyeq heqk.1 heqk.2
      obtain ⟨hpermA, hneA⟩ := perm_erase_of_mem hinv.items_sorted hold_mem
      have hd : (Delete c id).1 =
          { c with
            items := (btreeDelete byID c.items ⟨id, .str ""⟩).1,
            index := if objIsSpatial oldItem.obj && !oldItem.obj.empty then
                c.index.erase ⟨oldItem.obj.rect, oldItem⟩ else c.index,
            values := if objIsSpatial oldItem.obj then c.values
                else (btreeDelete byValue c.values oldItem).1,
            objects := c.objects - (if objIsSpatial oldItem.obj then 1 else 0),
            nobjects := c.nobjects - (if objIsSpatial oldItem.obj then 0 else 1),
            weight := c.weight - objWeightRaw c.fieldValues oldItem,
            points := c.points - (oldItem.obj.numPoints : Int),
            fieldValues := alDel c.fieldValues id } := by
        by_cases hsp : objIsSpatial oldItem.obj = true <;>
          by_cases he : oldItem.obj.empty = true <;>
          simp [Delete, hr, indexDelete, deleteFieldValues, hsp, he,
            objWeight_eq_raw, objWeightRaw, getFieldValues]
      rw [hd]
      have hitems : (btreeDelete byID c.items ⟨id, .str ""⟩).1 = c.items.erase oldItem :=
        hrest
      refine ⟨?_, ?_, ?_, ?_, ?_, ?_, ?_, ?_, ?_, hinv.fm_snd, hinv.fm_nodup,
        hinv.fa_sorted, hinv.fa_mem⟩
      · rw [hitems]
        exact hinv.items_sorted.sublist (c.items.erase_sublist oldItem)
      · simp only
        split
        · exact hinv.values_sorted
        · exact btreeDelete_sorted oldItem hinv.values_sorted
      · simp only [hitems]
        have hnsf := nonSpatialFilter_perm hpermA
        rw [nonSpatialFilter_cons] at hnsf
        by_cases hsp : objIsSpatial oldItem.obj = true
        · rw [if_pos hsp]
          rw [if_pos hsp] at hnsf
          exact hinv.values_perm.trans hnsf
        · rw [if_neg hsp]
          rw [if_neg hsp] at hnsf
          cases hbd : (btreeDelete byValue c.values oldItem).2 with
          | none =>
              exfalso
              have hov : oldItem ∈ c.values := by
                rw [hinv.values_perm.mem_iff, nonSpatialFilter]
                exact List.mem_filter.mpr ⟨hold_mem, by simp [hsp]⟩
              exact btreeDelete_none_nomatch byValue_laws hinv.values_sorted hbd
                oldItem hov ⟨byValue_laws.irrefl oldItem, byValue_laws.irrefl oldItem⟩
          | some y =>
              obtain ⟨hy_mem, hy_eqk, hy_rest⟩ := btreeDelete_some hbd
              have hy_items : y ∈ c.items :=
                List.mem_of_mem_filter (hinv.values_perm.mem_iff.mp hy_mem)
              have hy_old : y = oldItem :=
                mem_unique_id hinv.items_sorted hy_items hold_mem
                  (byValue_keyeq hy_eqk.1 hy_eqk.2).2
              rw [hy_rest, hy_old]
              refine (hinv.values_perm.erase oldItem).trans ?_
              refine (List.Perm.erase oldItem hnsf).trans ?_
              rw [List.erase_cons_head]
      · simp only [hitems]
        have hse := spatialEntries_perm hpermA
        rw [spatialEntries_cons] at hse
        by_cases hcond : (objIsSpatial oldItem.obj && !oldItem.obj.empty) = true
        · rw [if_pos hcond]
          rw [if_pos hcond] at hse
          refine (hinv.index_perm.erase ⟨oldItem.obj.rect, oldItem⟩).trans ?_
          refine (List.Perm.erase ⟨oldItem.obj.rect, oldItem⟩ hse).trans ?_
          rw [List.erase_cons_head]
        · rw [if_neg hcond]
          rw [if_neg hcond] at hse
          exact hinv.index_perm.trans hse
      · intro id' hid'
        simp only [hitems] at *
        by_cases he : id' = id
        · rw [he, alGet_alDel_self] at hid'
          simp at hid'
        · rw [alGet_alDel_ne _ _ _ (fun hc => he hc.symm)] at hid'
          have := hinv.fv_keys id' hid'
          rw [mem_ids_of_perm hpermA id'] at this
          simp only [List.map_cons, List.mem_cons] at this
          rcases this with h1 | h1
          · exact absurd (h1.trans hid_eq) he
          · exact h1
      · simp only [hitems, hinv.objects_eq]
        have hsf := spatialFilter_perm hpermA
        rw [spatialFilter_cons] at hsf
        by_cases hsp : objIsSpatial oldItem.obj = true
        · rw [if_pos hsp]
          rw [if_pos hsp] at hsf
          rw [hsf.length_eq, List.length_cons]
          push_cast
          ring
        · rw [if_neg hsp]
          rw [if_neg hsp] at hsf
          rw [hsf.length_eq]
          push_cast
          ring
      · simp only [hitems, hinv.nobjects_eq]
        have hsf := nonSpatialFilter_perm hpermA
        rw [nonSpatialFilter_cons] at hsf
        by_cases hsp : objIsSpatial oldItem.obj = true
        · rw [if_pos hsp]
          rw [if_pos hsp] at hsf
          rw [hsf.length_eq]
          push_cast
          ring
        · rw [if_neg hsp]
          rw [if_neg hsp] at hsf
          rw [hsf.length_eq, List.length_cons]
          push_cast
          ring
      · simp only [hitems, hinv.points_eq]
        have h3 : pointsSum c.items =
            (oldItem.obj.numPoints : Int) + pointsSum (c.items.erase oldItem) := by
          unfold pointsSum
          rw [sumBy_perm _ hpermA, sumBy_cons]
        rw [h3]
        ring
      · simp only [hitems, hinv.weight_eq]
        have h3 : naiveWeight c.fieldValues c.items =
            objWeightRaw c.fieldValues oldItem +
              naiveWeight c.fieldValues (c.items.erase oldItem) := by
          unfold naiveWeight
          rw [sumBy_perm _ hpermA, sumBy_cons]
        have h4 : naiveWeight (alDel c.fieldValues id) (c.items.erase oldItem) =
            naiveWeight c.fieldValues (c.items.erase oldItem) :=
          naiveWeight_alDel_notmem c.fieldValues id
            (fun it hit => fun hc => hneA it hit (hc.trans hid_eq.symm))
        rw [h4, h3]
        ring

theorem inv_SetField (c : Collection) (id field : String) (v : ℚ) (hinv : Inv c) :
    Inv (SetField c id field v).1 := by
  cases hg : btreeGet byID c.items ⟨id, .str ""⟩ with
  | none =>
      have h : (SetField c id field v).1 = c := by simp [SetField, hg]
      rw [h]
      exact hinv
  | some item =>
      have hmem : item.id ∈ c.items.map itemT.id :=
        List.mem_map.mpr ⟨item, (btreeGet_some hg).1, rfl⟩
      have h : (SetField c id field v).1 = (setField c item field v).1 := by
        simp [SetField, hg]
      rw [h]
      exact inv_setField item field v hinv hmem

theorem inv_SetFields (c : Collection) (id : String) (fs : List String)
    (vs : List ℚ) (hinv : Inv c) : Inv (exOut (SetFields c id fs vs)) := by
  cases hg : btreeGet byID c.items ⟨id, .str ""⟩ with
  | none =>
      have h : exOut (SetFields c id fs vs) = c := by simp [SetFields, hg, exOut]
      rw [h]
      exact hinv
  | some item =>
      have hmem : item.id ∈ c.items.map itemT.id :=
        List.mem_map.mpr ⟨item, (btreeGet_some hg).1, rfl⟩
      have h : exOut (SetFields c id fs vs) = exOut (setFieldsLoop item c fs vs 0) := by
        simp only [SetFields, hg, exOut]
        cases setFieldsLoop item c fs vs 0 <;> rfl
      rw [h]
      exact (inv_setFieldsLoop item fs vs 0 c hinv hmem).1

theorem inv_applyOp (c : Collection) (op : Op) (hinv : Inv c) : Inv (applyOp c op) := by
  cases op with
  | set id obj fields values =>
      have h : applyOp c (.set id obj fields values) = exOut (Set c id obj fields values) := by
        simp only [applyOp, exOut]
        cases Set c id obj fields values <;> rfl
      rw [h]
      exact inv_Set c id obj fields values hinv
  | del id => exact inv_Delete c id hinv
  | setFieldOp id f v => exact inv_SetField c id f v hinv
  | setFieldsOp id fs vs =>
      have h : applyOp c (.setFieldsOp id fs vs) = exOut (SetFields c id fs vs) := by
        simp only [applyOp, exOut]
        cases SetFields c id fs vs <;> rfl
      rw [h]
      exact inv_SetFields c id fs vs hinv

/-- Every reachable collection state satisfies the invariant. -/
theorem inv_applyOps (ops : List Op) : Inv (applyOps New ops) := by
  suffices h : ∀ c, Inv c → Inv (applyOps c ops) from h New inv_New
  induction ops with
  | nil => exact fun c hc => hc
  | cons op ops ih => exact fun c hc => ih (applyOp c op) (inv_applyOp c op hc)

theorem filter_partition_length (l : List itemT) :
    (spatialFilter l).length + (nonSpatialFilter l).length = l.length := by
  induction l with
  | nil => rfl
  | cons x xs ih =>
      rw [spatialFilter_cons, nonSpatialFilter_cons]
      by_cases h : objIsSpatial x.obj = true
      · rw [if_pos h, if_pos h]
        simp only [List.length_cons]
        omega
      · rw [if_neg h, if_neg h]
        simp only [List.length_cons]
        omega

/-- Items held by the R-tree entries, and what membership there means. -/
theorem index_item_mem {c : Collection} (hinv : Inv c) (it : itemT) :
    it ∈ c.index.map REntry.item ↔
      it ∈ c.items.filter (fun x => objIsSpatial x.obj && !x.obj.empty) := by
  rw [(hinv.index_perm.map REntry.item).mem_iff, spatialEntries, List.map_map]
  have h : (REntry.item ∘ fun it => (⟨it.obj.rect, it⟩ : REntry)) = id := rfl
  rw [h, List.map_id]

end Collection

namespace Collection

/-- C3: After every finite sequence of Set, Delete, SetField and SetFields
operations starting from the empty collection, `Count()` equals the number
of items in the key index, `StringCount()` equals the number of non-spatial
items, `PointCount()` equals the sum of `NumPoints` over all stored items,
and `TotalWeight()` equals the from-scratch recomputation: the sum over
items of (NumPoints·16 if spatial else length of string form) + 8·(row
length) + length of id (`naiveWeight`). -/
theorem claim_C3_counters_exact (ops : List Op) :
    Count (applyOps New ops) = ((applyOps New ops).items.length : Int) ∧
    StringCount (applyOps New ops) =
      ((nonSpatialFilter (applyOps New ops).items).length : Int) ∧
    PointCount (applyOps New ops) = pointsSum (applyOps New ops).items ∧
    TotalWeight (applyOps New ops) =
      naiveWeight (applyOps New ops).fieldValues (applyOps New ops).items := by
  have hinv := inv_applyOps ops
  refine ⟨?_, hinv.nobjects_eq, hinv.points_eq, hinv.weight_eq⟩
  rw [Count, hinv.objects_eq, hinv.nobjects_eq]
  rw [← filter_partition_length (applyOps New ops).items]
  push_cast
  ring

/-- C4: After every finite sequence of Set and Delete operations (and field
writes), every stored spatial non-empty item is in the spatial index, every
stored non-spatial item is in the value index, no stored item is in both,
and a stored item with an empty spatial geometry is in the key index
only. -/
theorem claim_C4_index_membership (ops : List Op) :
    ∀ it ∈ (applyOps New ops).items,
      (objIsSpatial it.obj = true → it.obj.empty = false →
        it ∈ (applyOps New ops).index.map REntry.item) ∧
      (objIsSpatial it.obj = false → it ∈ (applyOps New ops).values) ∧
      ¬(it ∈ (applyOps New ops).index.map REntry.item ∧
        it ∈ (applyOps New ops).values) ∧
      (objIsSpatial it.obj = true → it.obj.empty = true →
        it ∉ (applyOps New ops).index.map REntry.item ∧
          it ∉ (applyOps New ops).values) := by
  have hinv := inv_applyOps ops
  intro it hit
  have hidx := index_item_mem hinv it
  have hval : it ∈ (applyOps New ops).values ↔
      it ∈ (applyOps New ops).items.filter (fun x => !objIsSpatial x.obj) :=
    hinv.values_perm.mem_iff
  refine ⟨?_, ?_, ?_, ?_⟩
  · intro hsp hemp
    rw [hidx]
    exact List.mem_filter.mpr ⟨hit, by simp [hsp, hemp]⟩
  · intro hsp
    rw [hval]
    exact List.mem_filter.mpr ⟨hit, by simp [hsp]⟩
  · rintro ⟨h1, h2⟩
    rw [hidx] at h1
    rw [hval] at h2
    have hsp1 := (List.mem_filter.mp h1).2
    have hsp2 := (List.mem_filter.mp h2).2
    simp at hsp1 hsp2
    exact absurd hsp1.1 (by simp [hsp2])
  · intro hsp hemp
    constructor
    · rw [hidx]
      intro hmem
      have := (List.mem_filter.mp hmem).2
      simp [hsp, hemp] at this
    · rw [hval]
      intro hmem
      have := (List.mem_filter.mp hmem).2
      simp [hsp] at this

/-- C9: After every finite sequence of operations, `field_map` is injective
(no two names share a column index) and `field_arr` is exactly the set of
keys of `field_map` in ascending lexicographic order with no duplicates. -/
theorem claim_C9_field_schema (ops : List Op) :
    (∀ p ∈ (applyOps New ops).fieldMap, ∀ q ∈ (applyOps New ops).fieldMap,
        p.2 = q.2 → p.1 = q.1) ∧
    (applyOps New ops).fieldArr.Pairwise (fun a b => a < b) ∧
    (applyOps New ops).fieldArr.Nodup ∧
    (∀ s, s ∈ (applyOps New ops).fieldArr ↔
        s ∈ (applyOps New ops).fieldMap.map Prod.fst) := by
  have hinv := inv_applyOps ops
  have hsnd_nodup : ((applyOps New ops).fieldMap.map Prod.snd).Nodup := by
    rw [hinv.fm_snd]
    exact List.nodup_range _
  refine ⟨?_, hinv.fa_sorted, ?_, hinv.fa_mem⟩
  · intro p hp q hq he
    rw [nodup_map_inj hsnd_nodup hp hq he]
  · exact hinv.fa_sorted.imp ne_of_lt

/-- The one-item collection of the sparse-alive evaluation: a single
spatial item `"a"` with bounding rectangle `[0,1]²`. -/
def sparseCexCol : Collection :=
  applyOps New [.set "a" (.rectObj ⟨⟨0, 0⟩, ⟨1, 1⟩⟩ 2 false "R") none []]

/-- The query object of the sparse-alive evaluation: the rectangle
`[0,4]²`, which contains the stored item. -/
def sparseCexObj : GeoObject := .rectObj ⟨⟨0, 0⟩, ⟨4, 4⟩⟩ 2 false "Q"

/-- C1 (evaluation at the failing input): calling `Within` or `Intersects`
with `sparse = 1` on a collection whose single item matches, with a visitor
that returns `false` on its very first invocation, still returns
`alive = true` — the visitor is invoked (the collecting state records
`"a"` and the visitor returned `false` there), yet the operation reports
`true`, because `geoSparse` discards the `geoSparseInner` result and
returns its never-reassigned local `alive`. -/
theorem claim_C1_sparse_alive_bug :
    Within sparseCexCol sparseCexObj 1 none
        (fun (acc : List String) id _ _ => (acc ++ [id], false)) [] = (["a"], true) ∧
    Intersects sparseCexCol sparseCexObj 1 none
        (fun (acc : List String) id _ _ => (acc ++ [id], false)) [] = (["a"], true) := by
  constructor <;>
    norm_num [Within, Intersects, geoSparse, geoSparseInner, geoSearch, rtreeSearch,
      sparseCexCol, sparseCexObj, applyOps, applyOp, Collection.Set, setCore,
      setInsertNew, New, btreeSet, byID, indexInsert, getFieldValues, alGet,
      objIsSpatial, GeoObject.rect, GeoObject.within, GeoObject.intersects,
      GeoObject.empty, rectWithin, rectIntersects, cursorOffset, objWeight,
      GeoObject.numPoints, GeoObject.string, setFieldValues, btIter]

/-- C10: every query operation and observer leaves the whole collection
state unchanged (the embedded visitors are pure, matching the claim's
proviso that the visitor does not itself mutate the collection). -/
theorem claim_C10_queries_pure {σ : Type} (c : Collection) (q : QueryOp σ) :
    (applyQuery c q).2 = c := by
  cases q <;> rfl

theorem setFieldsLoop_error_iff (item : itemT) (c : Collection) (fs : List String)
    (vs : List ℚ) (n : Nat) :
    (∃ cp, setFieldsLoop item c fs vs n = .error cp) ↔ vs.length < fs.length := by
  induction fs generalizing c vs n with
  | nil => simp [setFieldsLoop]
  | cons f fs ih =>
      cases vs with
      | nil => simp [setFieldsLoop]
      | cons v vs =>
          rw [setFieldsLoop]
          rw [ih]
          simp [Nat.succ_lt_succ_iff]

/-- C2 (amended): `Set` performs no argument validation; when `fields` is
supplied, the call panics with an index-out-of-range (modelled as
`Except.error`) exactly when `len(values) < len(fields)`; extra values are
silently ignored; there is no `ArgumentMismatch` error. -/
theorem claim_C2_amended (c : Collection) (id : String) (obj : GeoObject)
    (fields : List String) (values : List ℚ) :
    (∃ cp, Set c id obj (some fields) values = .error cp) ↔
      values.length < fields.length := by
  rw [← setFieldsLoop_error_iff ⟨id, obj⟩ (setCore c ⟨id, obj⟩).1 fields values 0]
  simp only [Collection.Set]
  cases h : setFieldsLoop ⟨id, obj⟩ (setCore c ⟨id, obj⟩).1 fields values 0 with
  | error cp => simp [h]
  | ok p => simp [h]

/-- C2 (counterexample): `Set` on the empty collection with
`fields = ["f", "g"]` and `values = [1]` panics (no `ArgumentMismatch`
error), and the state at the panic has the field write for `"f"`
already applied — `fields["f"] = 1` with column `0` assigned — so the
claim's "does not partially apply field writes" is false. -/
theorem claim_C2_counterexample :
    (∃ cp, Set New "a" (GeoObject.str "v") (some ["f", "g"]) [1] = .error cp) ∧
    getFieldValues (exOut (Set New "a" (GeoObject.str "v") (some ["f", "g"]) [1])) "a" = [1] ∧
    alGet (exOut (Set New "a" (GeoObject.str "v") (some ["f", "g"]) [1])).fieldMap "f" =
      some 0 := by
  refine ⟨?_, ?_, ?_⟩ <;>
    norm_num [Collection.Set, setCore, setInsertNew, setFieldsLoop, setField,
      exOut, New, btreeSet, byID, byValue, getFieldValues, setFieldValues, alGet, alSet,
      objIsSpatial, GeoObject.string, GeoObject.numPoints, objWeight, addToFieldArr,
      bsearch, bsearchLoop, growFields_eq, fieldCol]

theorem growFields_of_lt (l : List ℚ) (idx : Nat) (h : idx < l.length) :
    growFields l idx = l := by
  unfold growFields
  have : idx + 1 - l.length = 0 := by omega
  simp [this]

theorem growFields_getD_self (l : List ℚ) (idx : Nat) :
    (growFields l idx).getD idx 0 = l.getD idx 0 := by
  by_cases h : idx < l.length
  · rw [growFields_of_lt l idx h]
  · unfold growFields
    rw [List.getD_eq_getElem?_getD, List.getD_eq_getElem?_getD,
      List.getElem?_append_right (by omega), List.getElem?_replicate]
    have h2 : idx - l.length < idx + 1 - l.length := by omega
    rw [if_pos h2]
    rw [List.getElem?_eq_none (by omega)]
    rfl

/-- C5: for `SetField(id, name, v)` on a present id: a new name is assigned
the next column index (the current size of `field_map`, i.e. the number of
previously known names since the key set is duplicate-free); the row is
extended and `v` is written at the column, so a subsequent `Get(id)` reads
`v` at `field_map[name]`; the `updated` flag is `true` iff the previously
stored value (`0` for a freshly created slot) differs from `v`; and writing
the same value a second time returns `updated = false`. -/
theorem claim_C5_setField_spec (c : Collection) (id name : String) (v : ℚ)
    (item : itemT) (hget : btreeGet byID c.items ⟨id, .str ""⟩ = some item)
    (hnodup : (c.fieldMap.map Prod.fst).Nodup) :
    (alGet c.fieldMap name = none → fieldCol c name = c.fieldMap.length) ∧
    alGet (SetField c id name v).1.fieldMap name = some (fieldCol c name) ∧
    (SetField c id name v).2.2.2.2 = true ∧
    ((Get (SetField c id name v).1 id).2.1)[fieldCol c name]? = some v ∧
    (SetField c id name v).2.2.2.1 =
      decide ((getFieldValues c id).getD (fieldCol c name) 0 ≠ v) ∧
    (SetField (SetField c id name v).1 id name v).2.2.2.1 = false := by
  have hid : item.id = id := byID_keyeq (btreeGet_some hget).2.1 (btreeGet_some hget).2.2
  have hSF : SetField c id name v =
      ((setField c item name v).1, some item.obj,
        getFieldValues (setField c item name v).1 id, (setField c item name v).2, true) := by
    simp [SetField, hget]
  have hfm' : alGet (setField c item name v).1.fieldMap name = some (fieldCol c name) := by
    rw [setField_fieldMap]
    cases hg : alGet c.fieldMap name with
    | some idx => simpa [fieldCol, hg] using hg
    | none => simp only [fieldCol, hg]; exact alGet_append_right c.fieldMap name _ hg
  have hrow : getFieldValues (setField c item name v).1 id =
      (growFields (getFieldValues c id) (fieldCol c name)).set (fieldCol c name) v := by
    rw [getFieldValues, setField_fieldValues, hid, alGet_alSet_self]
    rfl
  have hcol_lt : fieldCol c name <
      ((growFields (getFieldValues c id) (fieldCol c name)).set (fieldCol c name) v).length := by
    rw [List.length_set]
    exact growFields_lt _ _
  have hread : ((growFields (getFieldValues c id) (fieldCol c name)).set
      (fieldCol c name) v)[fieldCol c name]? = some v :=
    List.getElem?_set_self (by rw [← List.length_set (a := v)]; exact hcol_lt)
  refine ⟨?_, ?_, ?_, ?_, ?_, ?_⟩
  · intro hg
    simp [fieldCol, hg]
  · rw [hSF]
    exact hfm'
  · rw [hSF]
  · rw [hSF]
    have hget' : btreeGet byID (setField c item name v).1.items ⟨id, .str ""⟩ = some item := by
      rw [(setField_frame c item name v).1]
      exact hget
    simp only [Get, hget']
    rw [hrow]
    exact hread
  · rw [hSF]
    simp only [setField_updated]
    rw [hid, growFields_getD_self]
  · rw [hSF]
    have hget' : btreeGet byID (setField c item name v).1.items ⟨id, .str ""⟩ = some item := by
      rw [(setField_frame c item name v).1]
      exact hget
    have hSF2 : SetField (setField c item name v).1 id name v =
        ((setField (setField c item name v).1 item name v).1,
          some item.obj,
          getFieldValues (setField (setField c item name v).1 item name v).1 id,
          (setField (setField c item name v).1 item name v).2, true) := by
      simp [SetField, hget']
    rw [hSF2]
    simp only [setField_updated]
    have hcol2 : fieldCol (setField c item name v).1 name = fieldCol c name := by
      simp [fieldCol, hfm']
    rw [hcol2]
    have hrow2 : getFieldValues (setField c item name v).1 item.id =
        (growFields (getFieldValues c id) (fieldCol c name)).set (fieldCol c name) v := by
      rw [hid]
      exact hrow
    rw [hrow2, growFields_getD_self]
    rw [List.getD_eq_getElem?_getD, hread]
    simp

/-! ## Traversal analysis -/

/-- A traversal whose step either applies an effect and continues (guard
true) or stops leaving the visitor state and `keepon` untouched (guard
false) computes the fold of the effect over the guarded prefix, with
`keepon` still true. -/
theorem btIter_guarded {σ : Type} (g : itemT → Bool) (h : σ → itemT → σ)
    (step : (σ × Bool × Nat) → itemT → (σ × Bool × Nat) × Bool)
    (hstepT : ∀ s k n it, g it = true → step (s, k, n) it = ((h s it, true, n + 1), true))
    (hstepF : ∀ s k n it, g it = false → ∃ m, step (s, k, n) it = ((s, k, m), false)) :
    ∀ (l : List itemT) (s : σ) (n : Nat),
      (btIter step (s, true, n) l).1 = (l.takeWhile g).foldl h s ∧
        (btIter step (s, true, n) l).2.1 = true := by
  intro l
  induction l with
  | nil => intro s n; exact ⟨rfl, rfl⟩
  | cons x xs ih =>
      intro s n
      cases hg : g x with
      | true =>
          rw [btIter, hstepT s true n x hg]
          simp only [if_pos rfl]
          rw [List.takeWhile_cons, hg]
          exact ih (h s x) (n + 1)
      | false =>
          obtain ⟨m, hm⟩ := hstepF s true n x hg
          rw [btIter, hm]
          constructor <;> simp [List.takeWhile_cons, hg]

/-- On a list ordered so that the guard can only turn off, the guarded
prefix is the whole guarded sublist. -/
theorem takeWhile_eq_filter {l : List itemT} {p : itemT → Bool}
    (hs : l.Pairwise (fun a b => p b = true → p a = true)) :
    l.takeWhile p = l.filter p := by
  induction l with
  | nil => rfl
  | cons x xs ih =>
      rw [List.pairwise_cons] at hs
      rw [List.takeWhile_cons, List.filter_cons]
      cases hx : p x with
      | true =>
          simp only [hx, if_pos]
          rw [ih hs.2]
      | false =>
          have hnil : xs.filter p = [] := by
            rw [List.filter_eq_nil_iff]
            intro a ha hpa
            rw [hs.1 a ha hpa] at hx
            simp at hx
          simp [hx, hnil]

theorem filter_pairwise {l : List itemT} {p : itemT → Bool}
    {R : itemT → itemT → Prop} (hs : l.Pairwise R) : (l.filter p).Pairwise R :=
  hs.sublist (List.filter_sublist l)

/-- C6: an ascending `ScanRange(start, end)` with no cursor feeds the
visitor exactly the stored ids in `[start, end)` in ascending order,
stopping at the first id `≥ end`; a descending call feeds exactly the ids
`≤ start` with `id > end` in descending order, stopping at the first id
`≤ end`.  (The visitor keeps the traversal alive throughout; "visits
exactly this item list in this order" is expressed as the fold of the
visitor over that list.) -/
theorem claim_C6_scanRange (ops : List Op) (start endv : String) {σ : Type}
    (f : Visitor σ) (hf : ∀ s i o fl, (f s i o fl).2 = true) (s0 : σ) :
    ScanRange (applyOps New ops) start endv false none f s0 =
      (((applyOps New ops).items.filter
          (fun it => decide (start ≤ it.id) && decide (it.id < endv))).foldl
        (fun s it => (f s it.id it.obj (getFieldValues (applyOps New ops) it.id)).1) s0,
        true) ∧
    ScanRange (applyOps New ops) start endv true none f s0 =
      ((((applyOps New ops).items.filter
          (fun it => decide (endv < it.id) && decide (it.id ≤ start))).reverse).foldl
        (fun s it => (f s it.id it.obj (getFieldValues (applyOps New ops) it.id)).1) s0,
        true) := by
  have hsorted := (inv_applyOps ops).items_sorted
  constructor
  · unfold ScanRange
    dsimp only
    simp only [cursorOffset, Bool.not_false, Bool.not_true, if_true, if_false,
      eq_self_iff_true, Bool.false_eq_true]
    have hrun := btIter_guarded (fun it => !(decide (it.id ≥ endv)))
      (fun s it => (f s it.id it.obj (getFieldValues (applyOps New ops) it.id)).1)
      (fun st item =>
        if st.2.2 + 1 ≤ 0 then ((st.1, st.2.1, st.2.2 + 1), true)
        else
          if decide (item.id ≥ endv) = true then ((st.1, st.2.1, st.2.2 + 1), false)
          else
            (((f st.1 item.id item.obj (getFieldValues (applyOps New ops) item.id)).1,
                (f st.1 item.id item.obj (getFieldValues (applyOps New ops) item.id)).2,
                st.2.2 + 1),
              (f st.1 item.id item.obj (getFieldValues (applyOps New ops) item.id)).2))
      (fun s k n it hg => by
        dsimp only
        rw [if_neg (by omega : ¬ (n + 1 ≤ 0))]
        rw [if_neg (by simpa using hg)]
        rw [hf s it.id it.obj (getFieldValues (applyOps New ops) it.id)])
      (fun s k n it hg => ⟨n + 1, by
        dsimp only
        rw [if_neg (by omega : ¬ (n + 1 ≤ 0))]
        rw [if_pos (by simpa using hg)]⟩)
      (ascendFrom byID (applyOps New ops).items (some ⟨start, .str ""⟩)) s0 0
    rw [hrun.1, hrun.2]
    have hlist : ((ascendFrom byID (applyOps New ops).items
          (some ⟨start, .str ""⟩)).takeWhile (fun it => !(decide (it.id ≥ endv)))) =
        (applyOps New ops).items.filter
          (fun it => decide (start ≤ it.id) && decide (it.id < endv)) := by
      rw [ascendFrom]
      rw [takeWhile_eq_filter ((filter_pairwise hsorted).imp ?mono)]
      case mono =>
        intro a b hab hgb
        rw [byID_iff] at hab
        simp only [Bool.not_eq_eq_eq_not, Bool.not_true, decide_eq_false_iff_not,
          not_le] at hgb ⊢
        exact lt_trans hab hgb
      rw [List.filter_filter]
      refine List.filter_congr ?_
      intro it _
      simp only [byID, ← decide_not, ge_iff_le, not_le, not_lt]
      rw [Bool.and_comm]
    rw [hlist]
  · unfold ScanRange
    dsimp only
    simp only [cursorOffset, Bool.not_false, Bool.not_true, if_true, if_false,
      eq_self_iff_true, Bool.false_eq_true]
    have hrun := btIter_guarded (fun it => !(decide (it.id ≤ endv)))
      (fun s it => (f s it.id it.obj (getFieldValues (applyOps New ops) it.id)).1)
      (fun st item =>
        if st.2.2 + 1 ≤ 0 then ((st.1, st.2.1, st.2.2 + 1), true)
        else
          if decide (item.id ≤ endv) = true then ((st.1, st.2.1, st.2.2 + 1), false)
          else
            (((f st.1 item.id item.obj (getFieldValues (applyOps New ops) item.id)).1,
                (f st.1 item.id item.obj (getFieldValues (applyOps New ops) item.id)).2,
                st.2.2 + 1),
              (f st.1 item.id item.obj (getFieldValues (applyOps New ops) item.id)).2))
      (fun s k n it hg => by
        dsimp only
        rw [if_neg (by omega : ¬ (n + 1 ≤ 0))]
        rw [if_neg (by simpa using hg)]
        rw [hf s it.id it.obj (getFieldValues (applyOps New ops) it.id)])
      (fun s k n it hg => ⟨n + 1, by
        dsimp only
        rw [if_neg (by omega : ¬ (n + 1 ≤ 0))]
        rw [if_pos (by simpa using hg)]⟩)
      (descendFrom byID (applyOps New ops).items (some ⟨start, .str ""⟩)) s0 0
    rw [hrun.1, hrun.2]
    have hlist : ((descendFrom byID (applyOps New ops).items
          (some ⟨start, .str ""⟩)).takeWhile (fun it => !(decide (it.id ≤ endv)))) =
        ((applyOps New ops).items.filter
          (fun it => decide (endv < it.id) && decide (it.id ≤ start))).reverse := by
      rw [descendFrom]
      rw [takeWhile_eq_filter ?srt]
      case srt =>
        rw [List.pairwise_reverse]
        refine (filter_pairwise hsorted).imp ?_
        intro a b hab hgb
        rw [byID_iff] at hab
        simp only [Bool.not_eq_eq_eq_not, Bool.not_true, decide_eq_false_iff_not,
          not_le] at hgb ⊢
        exact lt_trans hgb hab
      rw [← List.filter_reverse]
      rw [List.filter_filter]
      rw [← List.filter_reverse]
      refine List.filter_congr ?_
      intro it _
      simp only [byID, ← decide_not, not_le, not_lt]
    rw [hlist]

/-- No string is lexicographically below the empty string. -/
theorem str_not_lt_empty (s : String) : ¬ s < "" := by
  intro h
  rw [String.lt_iff_toList_lt] at h
  have he : ("" : String).toList = [] := rfl
  rw [he] at h
  exact absurd h (not_lt.mpr List.nil_le)

/-- Comparing an item against a range sentinel `&itemT{obj: String(t)}`
(empty id) under `byValue` reduces to comparing string forms: the id
tiebreak `it.id < ""` can never fire. -/
theorem byValue_sentinel (it : itemT) (t : String) :
    byValue it ⟨"", .str t⟩ = decide (it.obj.string < t) := by
  have hs : (GeoObject.str t).string = t := rfl
  simp only [byValue, hs]
  rcases lt_trichotomy it.obj.string t with h | h | h
  · simp [h]
  · simp [h, lt_irrefl, byID, str_not_lt_empty it.id]
  · simp [h, lt_asymm h]

/-- C7: an ascending `SearchValuesRange(start, end)` with no cursor feeds
the visitor exactly the stored items whose `(string form, id)` key is at
least the sentinel `(start, "")` and strictly below the sentinel
`(end, "")`, in ascending `byValue` order (expressed as the fold of the
visitor over that filtered value list), with the final `keepon` true; and
because no id sorts below the empty string, that sentinel band is exactly
the items with `start ≤ string form < end`. -/
theorem claim_C7_searchValuesRange (ops : List Op) (start endv : String) {σ : Type}
    (f : Visitor σ) (hf : ∀ s i o fl, (f s i o fl).2 = true) (s0 : σ) :
    SearchValuesRange (applyOps New ops) start endv false none f s0 =
      (((applyOps New ops).values.filter
          (fun it => !byValue it ⟨"", .str start⟩ && byValue it ⟨"", .str endv⟩)).foldl
        (fun s it => (f s it.id it.obj (getFieldValues (applyOps New ops) it.id)).1) s0,
        true) ∧
    ((applyOps New ops).values.filter
        (fun it => !byValue it ⟨"", .str start⟩ && byValue it ⟨"", .str endv⟩)) =
      ((applyOps New ops).values.filter
        (fun it => decide (start ≤ it.obj.string) && decide (it.obj.string < endv))) := by
  have hsorted := (inv_applyOps ops).values_sorted
  constructor
  · unfold SearchValuesRange
    dsimp only
    simp only [cursorOffset, Bool.not_false, Bool.not_true, if_true, if_false,
      eq_self_iff_true, Bool.false_eq_true]
    have hrun := btIter_guarded (fun it => byValue it ⟨"", .str endv⟩)
      (fun s it => (f s it.id it.obj (getFieldValues (applyOps New ops) it.id)).1)
      (fun st item =>
        if byValue item ⟨"", .str endv⟩ = true then
          if st.2.2 + 1 ≤ 0 then ((st.1, st.2.1, st.2.2 + 1), true)
          else
            (((f st.1 item.id item.obj (getFieldValues (applyOps New ops) item.id)).1,
                (f st.1 item.id item.obj (getFieldValues (applyOps New ops) item.id)).2,
                st.2.2 + 1),
              (f st.1 item.id item.obj (getFieldValues (applyOps New ops) item.id)).2)
        else (st, false))
      (fun s k n it hg => by
        dsimp only
        rw [if_pos hg]
        rw [if_neg (by omega : ¬ (n + 1 ≤ 0))]
        rw [hf s it.id it.obj (getFieldValues (applyOps New ops) it.id)])
      (fun s k n it hg => ⟨n, by
        dsimp only
        rw [if_neg (by simp [hg])]⟩)
      (ascendFrom byValue (applyOps New ops).values (some ⟨"", .str start⟩)) s0 0
    rw [hrun.1, hrun.2]
    have hlist : ((ascendFrom byValue (applyOps New ops).values
          (some ⟨"", .str start⟩)).takeWhile (fun it => byValue it ⟨"", .str endv⟩)) =
        (applyOps New ops).values.filter
          (fun it => !byValue it ⟨"", .str start⟩ && byValue it ⟨"", .str endv⟩) := by
      rw [ascendFrom]
      rw [takeWhile_eq_filter ((filter_pairwise hsorted).imp ?mono)]
      case mono =>
        intro a b hab hgb
        exact byValue_laws.trans hab hgb
      rw [List.filter_filter]
      refine List.filter_congr ?_
      intro it _
      rw [Bool.and_comm]
    rw [hlist]
  · refine List.filter_congr ?_
    intro it _
    rw [byValue_sentinel it start, byValue_sentinel it endv]
    simp only [← decide_not, not_lt]

/-- C8: a `Nearby` call on a circle with positive radius whose outer
rectangle touches no entry of the spatial index returns `(s0, true)`
without consulting the visitor (the result holds for every visitor). -/
theorem claim_C8_nearby_fastneg {σ : Type} (c : Collection) (center : GPoint)
    (meters : ℚ) (n : Nat) (sf : String) (cursor : Option Nat)
    (f : Visitor σ) (s0 : σ)
    (hpos : meters > 0)
    (hmiss : ∀ e ∈ c.index, rectIntersects e.rect (circleRect center meters) = false) :
    Nearby c (.circle center meters n sf) cursor f s0 = (s0, true) := by
  unfold Nearby
  dsimp only
  have hany : (c.index.any (fun e =>
      rectIntersects e.rect
        ⟨⟨(rectFromCenter center.y center.x meters).2.1,
          (rectFromCenter center.y center.x meters).1⟩,
          ⟨(rectFromCenter center.y center.x meters).2.2.2,
           (rectFromCenter center.y center.x meters).2.2.1⟩⟩)) = false := by
    rw [List.any_eq_false]
    intro e he
    have hm := hmiss e he
    rw [circleRect] at hm
    simpa using hm
  rw [if_pos hpos, hany]
  simp

/-- A one-item collection exercising the index-membership claim. -/
theorem claim_C4_index_membership_witness :
    (⟨"a", GeoObject.str "x"⟩ : itemT) ∈
        (applyOps New [.set "a" (.str "x") none []]).items ∧
    ((objIsSpatial (⟨"a", GeoObject.str "x"⟩ : itemT).obj = true →
        (⟨"a", GeoObject.str "x"⟩ : itemT).obj.empty = false →
        (⟨"a", GeoObject.str "x"⟩ : itemT) ∈
          (applyOps New [.set "a" (.str "x") none []]).index.map REntry.item) ∧
      (objIsSpatial (⟨"a", GeoObject.str "x"⟩ : itemT).obj = false →
        (⟨"a", GeoObject.str "x"⟩ : itemT) ∈
          (applyOps New [.set "a" (.str "x") none []]).values) ∧
      ¬((⟨"a", GeoObject.str "x"⟩ : itemT) ∈
          (applyOps New [.set "a" (.str "x") none []]).index.map REntry.item ∧
        (⟨"a", GeoObject.str "x"⟩ : itemT) ∈
          (applyOps New [.set "a" (.str "x") none []]).values) ∧
      (objIsSpatial (⟨"a", GeoObject.str "x"⟩ : itemT).obj = true →
        (⟨"a", GeoObject.str "x"⟩ : itemT).obj.empty = true →
        (⟨"a", GeoObject.str "x"⟩ : itemT) ∉
            (applyOps New [.set "a" (.str "x") none []]).index.map REntry.item ∧
          (⟨"a", GeoObject.str "x"⟩ : itemT) ∉
            (applyOps New [.set "a" (.str "x") none []]).values)) := by
  have hmem : (⟨"a", GeoObject.str "x"⟩ : itemT) ∈
      (applyOps New [.set "a" (.str "x") none []]).items := by
    norm_num [applyOps, applyOp, Collection.Set, setCore, setRemoveOld, setInsertNew,
      New, btreeSet, byID, byValue, indexInsert, objIsSpatial, GeoObject.string,
      GeoObject.numPoints, objWeight, setFieldValues, getFieldValues, alGet]
  exact ⟨hmem,
    claim_C4_index_membership [.set "a" (.str "x") none []] ⟨"a", .str "x"⟩ hmem⟩

/-- A one-item collection exercising the `SetField` claim. -/
def c5Col : Collection :=
  ⟨[⟨"a", .str "x"⟩], [], [⟨"a", .str "x"⟩], [], [], [], 1, 0, 0, 1⟩

theorem claim_C5_setField_spec_witness :
    btreeGet byID c5Col.items ⟨"a", .str ""⟩ = some ⟨"a", GeoObject.str "x"⟩ ∧
    (c5Col.fieldMap.map Prod.fst).Nodup ∧
    ((alGet c5Col.fieldMap "f" = none → fieldCol c5Col "f" = c5Col.fieldMap.length) ∧
      alGet (SetField c5Col "a" "f" 5).1.fieldMap "f" = some (fieldCol c5Col "f") ∧
      (SetField c5Col "a" "f" 5).2.2.2.2 = true ∧
      ((Get (SetField c5Col "a" "f" 5).1 "a").2.1)[fieldCol c5Col "f"]? = some 5 ∧
      (SetField c5Col "a" "f" 5).2.2.2.1 =
        decide ((getFieldValues c5Col "a").getD (fieldCol c5Col "f") 0 ≠ 5) ∧
      (SetField (SetField c5Col "a" "f" 5).1 "a" "f" 5).2.2.2.1 = false) :=
  ⟨by simp [c5Col, btreeGet, byID],
   by simp [c5Col],
   claim_C5_setField_spec c5Col "a" "f" 5 ⟨"a", .str "x"⟩
     (by simp [c5Col, btreeGet, byID]) (by simp [c5Col])⟩

theorem claim_C6_scanRange_witness :
    (∀ (s : List String) (i : String) (o : GeoObject) (fl : List ℚ),
      ((fun (acc : List String) (id : String) (_ : GeoObject) (_ : List ℚ) =>
          (acc ++ [id], true)) s i o fl).2 = true) ∧
    (ScanRange (applyOps New [.set "a" (.str "x") none []]) "a" "c" false none
        (fun (acc : List String) (id : String) (_ : GeoObject) (_ : List ℚ) =>
          (acc ++ [id], true)) [] =
      (((applyOps New [.set "a" (.str "x") none []]).items.filter
          (fun it => decide ("a" ≤ it.id) && decide (it.id < "c"))).foldl
        (fun s it =>
          ((fun (acc : List String) (id : String) (_ : GeoObject) (_ : List ℚ) =>
              (acc ++ [id], true)) s it.id it.obj
            (getFieldValues (applyOps New [.set "a" (.str "x") none []]) it.id)).1) [],
        true) ∧
    ScanRange (applyOps New [.set "a" (.str "x") none []]) "a" "c" true none
        (fun (acc : List String) (id : String) (_ : GeoObject) (_ : List ℚ) =>
          (acc ++ [id], true)) [] =
      ((((applyOps New [.set "a" (.str "x") none []]).items.filter
          (fun it => decide ("c" < it.id) && decide (it.id ≤ "a"))).reverse).foldl
        (fun s it =>
          ((fun (acc : List String) (id : String) (_ : GeoObject) (_ : List ℚ) =>
              (acc ++ [id], true)) s it.id it.obj
            (getFieldValues (applyOps New [.set "a" (.str "x") none []]) it.id)).1) [],
        true)) :=
  ⟨fun _ _ _ _ => rfl,
   claim_C6_scanRange [.set "a" (.str "x") none []] "a" "c"
     (fun (acc : List String) (id : String) (_ : GeoObject) (_ : List ℚ) =>
       (acc ++ [id], true)) (fun _ _ _ _ => rfl) []⟩

theorem claim_C7_searchValuesRange_witness :
    (∀ (s : List String) (i : String) (o : GeoObject) (fl : List ℚ),
      ((fun (acc : List String) (id : String) (_ : GeoObject) (_ : List ℚ) =>
          (acc ++ [id], true)) s i o fl).2 = true) ∧
    (SearchValuesRange (applyOps New [.set "a" (.str "x") none []]) "x" "y" false none
        (fun (acc : List String) (id : String) (_ : GeoObject) (_ : List ℚ) =>
          (acc ++ [id], true)) [] =
      (((applyOps New [.set "a" (.str "x") none []]).values.filter
          (fun it => !byValue it ⟨"", .str "x"⟩ && byValue it ⟨"", .str "y"⟩)).foldl
        (fun s it =>
          ((fun (acc : List String) (id : String) (_ : GeoObject) (_ : List ℚ) =>
              (acc ++ [id], true)) s it.id it.obj
            (getFieldValues (applyOps New [.set "a" (.str "x") none []]) it.id)).1) [],
        true) ∧
    ((applyOps New [.set "a" (.str "x") none []]).values.filter
        (fun it => !byValue it ⟨"", .str "x"⟩ && byValue it ⟨"", .str "y"⟩)) =
      ((applyOps New [.set "a" (.str "x") none []]).values.filter
        (fun it => decide ("x" ≤ it.obj.string) && decide (it.obj.string < "y")))) :=
  ⟨fun _ _ _ _ => rfl,
   claim_C7_searchValuesRange [.set "a" (.str "x") none []] "x" "y"
     (fun (acc : List String) (id : String) (_ : GeoObject) (_ : List ℚ) =>
       (acc ++ [id], true)) (fun _ _ _ _ => rfl) []⟩

theorem claim_C8_nearby_fastneg_witness :
    (1 : ℚ) > 0 ∧
    (∀ e ∈ New.index, rectIntersects e.rect (circleRect ⟨0, 0⟩ 1) = false) ∧
    Nearby New (.circle ⟨0, 0⟩ 1 0 "c") none
      (fun (acc : List String) (id : String) (_ : GeoObject) (_ : List ℚ) =>
        (acc ++ [id], true)) [] = ([], true) :=
  ⟨by norm_num,
   by intro e he; simp [New] at he,
   claim_C8_nearby_fastneg New ⟨0, 0⟩ 1 0 "c" none _ []
     (by norm_num) (by intro e he; simp [New] at he)⟩

end Collection

end Tile38
